import Mathlib

/-!
Verification of the Durak card-game engine (`DurakEnv.py`, `DurakPlayer.py`).

The engine is shallowly embedded: the mutable `DurakEnv` object becomes the
record `EnvState`, each Python method becomes a Lean function on that record,
and Python exceptions (IndexError from list indexing, ValueError from
`list.index`) become `Except PyErr`.  Players are identified by their id
(a `Nat` standing for the distinct Python object / name); a hand is the list
of cards held by that player, kept in the `hands` map of the state.

`Deck.py` is not part of the sources; the card universe, `draw`, and the
trump constant are modelled from the spec (section "CardDeck"), which this
is marked on each such definition.
-/

set_option maxRecDepth 4000
set_option linter.unnecessarySimpa false

namespace Durak

/-- The four suits of `Deck.py`.  Modelled from the spec: a suit is one of
four enumerants. -/
inductive Suit where
  | hearts
  | diamonds
  | spades
  | clubs
deriving DecidableEq, Repr

/-- A card is a `(value, suit)` pair, exactly the tuples used by the code. -/
abbrev Card := Nat × Suit

/-- An action submitted to `step`: a real card, or `none` for the
`Deck.NO_CARD` sentinel (pass / decline). -/
abbrev Action := Option Card

namespace Deck

/-- Modelled from the spec: `Deck.py` is missing from the sources.  The spec
fixes a rank set and four suits; standard Durak (and `Deck.ACE` in the code)
gives values 6..14 with ace = 14. -/
def values : List Nat := [6, 7, 8, 9, 10, 11, 12, 13, 14]

/-- The four suits in a stable order. -/
def suitList : List Suit := [.hearts, .diamonds, .spades, .clubs]

/-- Modelled from the spec: `fullCardUniverse()` is a stable canonical
ordering of the 36 cards, excluding `NO_CARD`. -/
def fullCardList : List Card :=
  (values.map (fun v => suitList.map (fun st => (v, st)))).flatten

/-- Modelled from the spec: `draw(n)` removes and returns up to `n` cards
from the front of the deck, fewer if exhausted, never erroring. -/
def draw (n : Nat) (deck : List Card) : List Card × List Card :=
  (deck.take n, deck.drop n)

/-- The highest card value. -/
def ACE : Nat := 14

end Deck

/-- Number of cards of each suit in a hand, as counted by the loop of
`DurakPlayer.is_starting_hand_legal`. -/
structure SuitCounts where
  hearts : Nat
  diamonds : Nat
  spades : Nat
  clubs : Nat
deriving DecidableEq, Repr

/-- The counting loop of `DurakPlayer.is_starting_hand_legal`
(`DurakPlayer.py` lines 57-69): iterate over the hand and bump the counter
of each card's suit. -/
def countSuits (hand : List Card) : SuitCounts :=
  hand.foldl
    (fun acc c =>
      match c.2 with
      | .hearts => { acc with hearts := acc.hearts + 1 }
      | .diamonds => { acc with diamonds := acc.diamonds + 1 }
      | .spades => { acc with spades := acc.spades + 1 }
      | .clubs => { acc with clubs := acc.clubs + 1 })
    ⟨0, 0, 0, 0⟩

/-- `DurakPlayer.is_starting_hand_legal` (`DurakPlayer.py` lines 51-74):
a starting hand is illegal when `initialHandSize - 1` equals one of the four
suit counts, or hearts+diamonds equal `initialHandSize`, or spades+clubs do. -/
def is_starting_hand_legal (initialHandSize : Nat) (hand : List Card) : Bool :=
  let c := countSuits hand
  if (initialHandSize - 1) ∈ [c.hearts, c.diamonds, c.spades, c.clubs] ∨
      c.hearts + c.diamonds = initialHandSize ∨
      c.spades + c.clubs = initialHandSize then
    false
  else
    true

/-- `DurakPlayer.get_lowest_trump` (`DurakPlayer.py` lines 82-91): the value
of the lowest trump-suit card, `none` standing for the no-trump sentinel. -/
def getLowestTrump (trump : Suit) (hand : List Card) : Option Nat :=
  hand.foldl
    (fun m c =>
      if c.2 = trump then
        match m with
        | none => some c.1
        | some v => if c.1 < v then some c.1 else some v
      else m)
    none

/-- Python runtime errors surfaced by the embedded engine. -/
inductive PyErr where
  | indexError
  | valueError
  | retryExhausted
deriving DecidableEq, Repr

/-- Python list indexing `l[i]`: negative indices count from the back, out of
range raises `IndexError`. -/
def pyGet (l : List α) (i : Int) : Except PyErr α :=
  let j : Int := if i < 0 then i + l.length else i
  if h : 0 ≤ j ∧ j.toNat < l.length then .ok (l.get ⟨j.toNat, h.2⟩)
  else .error .indexError

/-- Python `l.index(x)`: the first index holding `x`, `ValueError` if absent. -/
def pyIndex [DecidableEq α] (l : List α) (x : α) : Except PyErr Nat :=
  match l with
  | [] => .error .valueError
  | a :: t => if a = x then .ok 0 else (pyIndex t x).map (· + 1)

/-- The mutable state of a `DurakEnv` object (`DurakEnv.py` lines 20-47).
`ring` is `active_players` (ids; position 0 the attacker, 1 the defender),
`hands` maps each player id to its hand.  `turnPlayer` and `attackingPlayer`
are `None` in Python until `do_reset_round` first assigns them; the engine
never reads them before that, so they are plain `Nat` here. -/
structure EnvState where
  ring : List Nat
  hands : Nat → List Card
  attackingPlayer : Nat
  turnPlayer : Nat
  loser : Option Nat
  attackingCards : List Card
  defendingCards : List Card
  legalAttackingCards : List Action
  legalDefendingCards : List Action
  deck : List Card
  trumpSuit : Suit
  defending : Bool
  successful : Bool
  limit : Nat
  resetRound : Bool
  attackPhase : Bool
  resetAttacker : Bool

instance : Inhabited EnvState :=
  ⟨⟨[], fun _ => [], 0, 0, none, [], [], [], [], [], .hearts, true, false, 0,
    false, true, true⟩⟩

/-- Replace one player's hand. -/
def updHands (h : Nat → List Card) (p : Nat) (v : List Card) : Nat → List Card :=
  fun q => if q = p then v else h q

namespace DurakEnv

def HAND_SIZE : Nat := 6
def MIN_PLAYERS : Nat := 2
def MAX_PLAYERS : Nat := 6

/-- `DurakEnv.game_over` (line 311): fewer active players than the minimum. -/
def gameOver (s : EnvState) : Bool := s.ring.length < MIN_PLAYERS

/-- `DurakEnv.do_attack_phase` (lines 141-160). -/
def doAttackPhase (a : Action) (s : EnvState) : Except PyErr EnvState :=
  match a with
  | some c =>
    .ok { s with attackingCards := s.attackingCards ++ [c], attackPhase := false }
  | none => do
    let lastP ← pyGet s.ring (-1)
    if s.turnPlayer = lastP then
      pure { s with defending := false, successful := true, resetAttacker := true }
    else do
      let i ← pyIndex s.ring s.turnPlayer
      let t ← pyGet s.ring ((i : Int) + 1)
      let d ← pyGet s.ring 1
      if t = d then
        if t ≠ lastP then do
          let j ← pyIndex s.ring t
          let t2 ← pyGet s.ring ((j : Int) + 1)
          pure { s with resetAttacker := false, turnPlayer := t2 }
        else do
          let j ← pyIndex s.ring t
          let t2 ← pyGet s.ring ((j : Int) - 1)
          pure { s with turnPlayer := t2, defending := false, successful := true
                        resetAttacker := true }
      else
        pure { s with resetAttacker := false, turnPlayer := t }

/-- `DurakEnv.do_defence_phase` (lines 162-175).  On `NO_CARD` the table is
transferred into the turn player's hand (`take_cards` appends). -/
def doDefencePhase (a : Action) (s : EnvState) : Except PyErr EnvState :=
  match a with
  | some c =>
    let s1 := { s with defendingCards := s.defendingCards ++ [c], attackPhase := true }
    let s2 :=
      if s1.attackingCards.length = s1.defendingCards.length ∧
          s1.defendingCards.length = s1.limit then
        { s1 with defending := false, successful := true }
      else s1
    .ok { s2 with resetAttacker := true }
  | none =>
    .ok { s with
          defending := false, successful := false
          hands := updHands s.hands s.turnPlayer
            (s.hands s.turnPlayer ++ s.attackingCards ++ s.defendingCards) }

/-- `DurakEnv.calculate_reward` (lines 268-284). -/
def calculateReward (s : EnvState) : Int :=
  if (s.hands s.turnPlayer).length = 0 ∧ s.deck.length = 0 then 30
  else if s.defending = false then
    (if s.successful then 1 else -1)
  else 0

/-- `DurakEnv.check_end_round` (lines 290-297). -/
def checkEndRound (s : EnvState) : Except PyErr EnvState :=
  if s.defending = false then .ok { s with resetRound := true }
  else if s.attackPhase && s.resetAttacker then do
    let p ← pyGet s.ring 0
    pure { s with turnPlayer := p }
  else if s.attackPhase = false then do
    let p ← pyGet s.ring 1
    pure { s with turnPlayer := p }
  else .ok s

/-- One refill of `update_players_hands`: draw `max(0, HAND_SIZE - handSize)`
cards and append them to the player's hand. -/
def refillOne (hd : (Nat → List Card) × List Card) (p : Nat) :
    (Nat → List Card) × List Card :=
  let n := HAND_SIZE - (hd.1 p).length
  (updHands hd.1 p (hd.1 p ++ hd.2.take n), hd.2.drop n)

/-- `DurakEnv.update_players_hands` (lines 177-182): refill everyone but the
defender in ring order, then the defender last. -/
def updatePlayersHands (s : EnvState) : Except PyErr EnvState := do
  let hd := (s.ring.take 1 ++ s.ring.drop 2).foldl refillOne (s.hands, s.deck)
  let d ← pyGet s.ring 1
  let hd1 := refillOne hd d
  pure { s with hands := hd1.1, deck := hd1.2 }

/-- `DurakEnv.remove_winners` (lines 184-190): drop every active player whose
hand is empty.  With distinct player objects the collect-then-`remove` loop
is a filter. -/
def removeWinners (s : EnvState) : EnvState :=
  { s with ring := s.ring.filter (fun p => (s.hands p).length != 0) }

/-- Rotate: `active_players.pop(attacker)` then append (only reached with a
nonempty ring). -/
def ringMoveBack (l : List Nat) : List Nat :=
  match l with
  | [] => []
  | h :: t => t ++ [h]

/-- `DurakEnv.move_attacker_back` (lines 201-206). -/
def moveAttackerBack (s : EnvState) : EnvState :=
  { s with ring := ringMoveBack s.ring }

/-- `DurakEnv.update_active_players_order` (lines 192-199). -/
def updateActivePlayersOrder (s : EnvState) : EnvState :=
  if s.ring.length = 1 then { s with loser := s.ring.head? }
  else if MIN_PLAYERS ≤ s.ring.length then
    let s1 := if s.ring.head? = some s.attackingPlayer then moveAttackerBack s else s
    if s1.successful = false then moveAttackerBack s1 else s1
  else s

/-- `DurakEnv.do_reset_round` (lines 208-221). -/
def doResetRound (s : EnvState) : Except PyErr EnvState := do
  let att ← pyGet s.ring 0
  let d ← pyGet s.ring 1
  pure { s with
        attackingCards := [], defendingCards := []
        legalAttackingCards := [], legalDefendingCards := []
        turnPlayer := att, attackingPlayer := att
        defending := true, successful := false
        limit := min HAND_SIZE (s.hands d).length
        attackPhase := true, resetAttacker := true, resetRound := false }

/-- Does some card of `l` share `c`'s value with a different suit?  The inner
loops at `DurakEnv.py` lines 234-242. -/
def matchesValue (l : List Card) (c : Card) : Bool :=
  l.any (fun a => c.1 == a.1 && c.2 != a.2)

/-- One iteration of the legal-attacking part of the `update_legal_cards`
loop (lines 233-242), appending to the accumulated list `la`. -/
def attAppend (att defC : List Card) (la : List Action) (c : Card) : List Action :=
  if c ∈ att ∨ c ∈ defC then la
  else
    let la1 := if matchesValue att c then la ++ [some c] else la
    if some c ∈ la1 then la1
    else if matchesValue defC c then la1 ++ [some c] else la1

/-- The defending-side beat test of `update_legal_cards` (lines 245-246):
same suit as the last attacking card with a strictly greater value, or trump
against a non-trump last attacking card.  The default of `getLastD` is never
read: the test is only reached with `attackingCards` nonempty. -/
def defBeat (trump : Suit) (att : List Card) (c : Card) : Bool :=
  let lastA := att.getLastD (0, Suit.hearts)
  (c.2 == lastA.2 && lastA.1 < c.1) || (c.2 == trump && lastA.2 != trump)

/-- One iteration of the legal-defending part of the `update_legal_cards`
loop (lines 243-247). -/
def defAppend (trump : Suit) (att defC : List Card) (ld : List Action) (c : Card) :
    List Action :=
  if defC.length < att.length then
    if c ∈ defC then ld
    else if defBeat trump att c then ld ++ [some c] else ld
  else ld

/-- The `legal_attacking_cards` list computed by `update_legal_cards`
(lines 223-248).  The single Python loop updates the attacking and defending
lists independently, so it is split into two folds. -/
def computedLegalAtt (att defC : List Card) : List Action :=
  if att.length = 0 then Deck.fullCardList.map some
  else Deck.fullCardList.foldl (attAppend att defC) [none]

/-- The `legal_defending_cards` list computed by `update_legal_cards`. -/
def computedLegalDef (trump : Suit) (att defC : List Card) : List Action :=
  if att.length = 0 then [none]
  else Deck.fullCardList.foldl (defAppend trump att defC) [none]

/-- `DurakEnv.update_legal_cards` (lines 223-248). -/
def updateLegalCards (s : EnvState) : EnvState :=
  { s with legalAttackingCards := computedLegalAtt s.attackingCards s.defendingCards
           legalDefendingCards :=
             computedLegalDef s.trumpSuit s.attackingCards s.defendingCards }

/-- The round-resolution block of `DurakEnv.step` (lines 131-136):
`update_end_round_players` only notifies the external player policies and
does not touch engine state, so it contributes nothing here; then refill
hands, drop winners, recompute the ring order, and start the next round
unless the game is over. -/
def resolveRound (s : EnvState) : Except PyErr EnvState := do
  let t1 ← updatePlayersHands s
  let t2 := removeWinners t1
  let t3 := updateActivePlayersOrder t2
  if gameOver t3 = false then doResetRound t3 else pure t3

/-- `DurakEnv.step` (lines 121-139).  Returns the new state, the reward, and
`game_over()`. -/
def step (s : EnvState) (a : Action) : Except PyErr (EnvState × Int × Bool) := do
  let s1 ← if s.attackPhase then doAttackPhase a s else doDefencePhase a s
  let r := calculateReward s1
  let s2 ← checkEndRound s1
  let s3 ← if s2.resetRound then resolveRound s2 else pure s2
  let s4 := updateLegalCards s3
  pure (s4, r, gameOver s4)

/-- `DurakEnv.deal_cards` (lines 100-106): deal `HAND_SIZE` cards to each
player in order; report `true` (redeal needed) at the first illegal hand. -/
def dealCards (hands : Nat → List Card) (deck : List Card) :
    List Nat → (Nat → List Card) × List Card × Bool
  | [] => (hands, deck, false)
  | p :: rest =>
    let drawn := (Deck.draw HAND_SIZE deck).1
    let deck1 := (Deck.draw HAND_SIZE deck).2
    let hands1 := updHands hands p (hands p ++ drawn)
    if is_starting_hand_legal HAND_SIZE (hands1 p) = false then (hands1, deck1, true)
    else dealCards hands1 deck1 rest

/-- `DurakEnv.initialize_players` (lines 81-106): repeat shuffle-and-deal
until every starting hand is legal.  Each loop iteration consumes the next
shuffled deck from `shuffleList`; Python would loop forever given endless
bad shuffles, here the supply running out is an explicit error. -/
def initializePlayers (order : List Nat) :
    List (List Card) → Except PyErr ((Nat → List Card) × List Card)
  | [] => .error .retryExhausted
  | shuffled :: rest =>
    let r := dealCards (fun _ => []) shuffled order
    if r.2.2 = true then initializePlayers order rest
    else .ok (r.1, r.2.1)

/-- The selection loop of `DurakEnv.set_first_attacker` (lines 108-115):
the player holding the lowest trump, scanning in ring order with a strict
comparison seeded by `ACE + 1`.  `getLowestTrump = none` (no trump in hand)
never beats the seed, matching the spec: with no trumps anywhere the ring is
left unchanged. -/
def chooseStarter (hands : Nat → List Card) (trump : Suit) (ring : List Nat) :
    Option Nat :=
  (ring.foldl
    (fun acc p =>
      match getLowestTrump trump (hands p) with
      | none => acc
      | some v => if v < acc.1 then (v, some p) else acc)
    (Deck.ACE + 1, none)).2

/-- The rotation loop of `set_first_attacker` (lines 116-119), fuelled: the
chosen starter is a ring member, so `ring.length` rotations always reach it. -/
def rotateUntilHead (target : Nat) : Nat → List Nat → List Nat
  | 0, l => l
  | fuel + 1, l =>
    if l.head? = some target then l else rotateUntilHead target fuel (ringMoveBack l)

/-- `DurakEnv.set_first_attacker` (lines 108-119). -/
def setFirstAttacker (hands : Nat → List Card) (trump : Suit) (ring : List Nat) :
    List Nat :=
  match chooseStarter hands trump ring with
  | none => ring
  | some t => rotateUntilHead t ring.length ring

/-- `DurakEnv.reset` (lines 53-79), parametrised by the outcomes of the two
random sources: `order` is the shuffled copy of the constructed player list,
`shuffleList` the successive shuffled decks consumed by the redeal loop.
The trump suit is always hearts (`self.trump_suit = self.deck.HEARTS`).
The placeholder zeros for `turnPlayer` and `attackingPlayer` model Python's
`None`; `do_reset_round` overwrites them before any read. -/
def reset (order : List Nat) (shuffleList : List (List Card)) :
    Except PyErr EnvState := do
  let r ← initializePlayers order shuffleList
  let ring := setFirstAttacker r.1 Suit.hearts order
  let s : EnvState :=
    { ring := ring, hands := r.1, attackingPlayer := 0, turnPlayer := 0
      loser := none, attackingCards := [], defendingCards := []
      legalAttackingCards := [], legalDefendingCards := [], deck := r.2
      trumpSuit := .hearts, defending := true, successful := false, limit := 0
      resetRound := false, attackPhase := true, resetAttacker := true }
  let s1 ← doResetRound s
  pure (updateLegalCards s1)

/-- `DurakEnv.get_available_actions` (lines 326-334): the turn player's hand
intersected with the legal defending cards when the turn player sits at the
defender position, with the legal attacking cards otherwise. -/
def getAvailableActions (s : EnvState) : Except PyErr (List Action) := do
  let d ← pyGet s.ring 1
  if s.turnPlayer = d then
    pure (((s.hands s.turnPlayer).map some).filter
      (fun x => decide (x ∈ s.legalDefendingCards)))
  else
    pure (((s.hands s.turnPlayer).map some).filter
      (fun x => decide (x ∈ s.legalAttackingCards)))

/-- An action drawn from the published legal set for the current phase. -/
def LegalAction (s : EnvState) (a : Action) : Prop :=
  a ∈ (if s.attackPhase then s.legalAttackingCards else s.legalDefendingCards)

instance (s : EnvState) (a : Action) : Decidable (LegalAction s a) := by
  unfold LegalAction; infer_instance

/-- States reachable by `reset()` followed by `step()` calls whose actions
come from the published legal sets.  The reset arguments reflect the real
random sources: a permutation of the constructed players (distinct objects,
count within the supported 2..MAX_PLAYERS range) and uniform shuffles of the
full 36-card deck. -/
inductive Reachable : EnvState → Prop where
  | reset_ok (order : List Nat) (shuffleList : List (List Card)) (s : EnvState)
      (hnd : order.Nodup) (hmin : MIN_PLAYERS ≤ order.length)
      (hmax : order.length ≤ MAX_PLAYERS)
      (hsh : ∀ l ∈ shuffleList, l.Perm Deck.fullCardList)
      (hok : reset order shuffleList = .ok s) : Reachable s
  | step_ok (s : EnvState) (a : Action) (s' : EnvState) (r : Int) (d : Bool)
      (hs : Reachable s) (ha : LegalAction s a)
      (hok : step s a = .ok (s', r, d)) : Reachable s'

/-- The fields of the state that a fragment of `step` leaves untouched:
used to transport invariants across the phase handlers and
`check_end_round`. -/
def SameCore (s t : EnvState) : Prop :=
  t.ring = s.ring ∧ t.hands = s.hands ∧ t.deck = s.deck ∧
  t.attackingCards = s.attackingCards ∧ t.defendingCards = s.defendingCards ∧
  t.limit = s.limit ∧ t.trumpSuit = s.trumpSuit ∧
  t.attackingPlayer = s.attackingPlayer

/-- Structural invariant of the engine state, maintained by every reachable
state: the ring holds distinct players; deck, hands and table hold real deck
cards; an empty attack row forces an empty defence row in the attack phase;
a concluded round (`defending = false`) survives only past game over; and
within a round the table rows alternate under the round limit. -/
def StateInv (s : EnvState) : Prop :=
  s.ring.Nodup ∧
  s.deck ⊆ Deck.fullCardList ∧
  (∀ p, s.hands p ⊆ Deck.fullCardList) ∧
  (∀ p ∈ s.ring, s.hands p ≠ []) ∧
  s.hands s.turnPlayer ≠ [] ∧
  s.attackingCards ⊆ Deck.fullCardList ∧
  s.defendingCards ⊆ Deck.fullCardList ∧
  (s.attackingCards = [] → s.defendingCards = [] ∧ s.attackPhase = true) ∧
  (s.defending = false → s.ring.length < MIN_PLAYERS) ∧
  (s.defending = true →
    MIN_PLAYERS ≤ s.ring.length ∧ s.turnPlayer ∈ s.ring ∧ 1 ≤ s.limit ∧
    s.resetRound = false ∧
    (s.attackPhase = true →
      s.attackingCards.length = s.defendingCards.length ∧
      s.attackingCards.length < s.limit) ∧
    (s.attackPhase = false →
      s.attackingCards.length = s.defendingCards.length + 1 ∧
      s.attackingCards.length ≤ s.limit))

/-- Full invariant: the structural invariant plus the published legal lists
being exactly what `update_legal_cards` computes from the current table. -/
def EnvInv (s : EnvState) : Prop :=
  StateInv s ∧
  s.legalAttackingCards = computedLegalAtt s.attackingCards s.defendingCards ∧
  s.legalDefendingCards =
    computedLegalDef s.trumpSuit s.attackingCards s.defendingCards

/-- Hand dealt to the first player of the concrete two-player game: one
heart (the lowest trump at the table, making this player the first
attacker), one spade, two clubs, two diamonds — a legal starting hand. -/
def coP0 : List Card :=
  [(6, .hearts), (7, .spades), (8, .clubs), (9, .diamonds), (10, .clubs),
   (11, .diamonds)]

/-- Hand dealt to the second player: lowest trump 8, also legal. -/
def coP1 : List Card :=
  [(8, .hearts), (6, .spades), (7, .clubs), (6, .diamonds), (9, .clubs),
   (8, .diamonds)]

/-- A full-deck shuffle that deals `coP0` then `coP1`. -/
def coDeck : List Card :=
  coP0 ++ coP1 ++
    Deck.fullCardList.filter (fun c => decide (c ∉ coP0) && decide (c ∉ coP1))

/-- The concrete two-player game right after `reset()`. -/
def coS0 : EnvState := ((reset [0, 1] [coDeck]).toOption).getD default

/-- First action: player 0 opens the attack with the ten of spades. -/
def coA1 : Action := some (10, .spades)

/-- Result of the first `step`. -/
def coR1 : EnvState × Int × Bool := ((step coS0 coA1).toOption).getD default

def coS1 : EnvState := coR1.1

/-- Second action: player 1 beats the ten of spades with a trump, the seven
of hearts. -/
def coA2 : Action := some (7, .hearts)

def coR2 : EnvState × Int × Bool := ((step coS1 coA2).toOption).getD default

def coS2 : EnvState := coR2.1

/-- Third action: player 0 adds the seven of spades, whose value matches the
seven of hearts lying on the table. -/
def coA3 : Action := some (7, .spades)

def coR3 : EnvState × Int × Bool := ((step coS2 coA3).toOption).getD default

/-- The state exhibiting the broken invariant: the ten of spades is on the
table (first attacking card) and is simultaneously listed as a legal
defending card, since `update_legal_cards` only excludes the defending row
from the defending candidates. -/
def coS3 : EnvState := coR3.1

/-- A seven-player order, one above `MAX_PLAYERS`. -/
def coOrder7 : List Nat := [0, 1, 2, 3, 4, 5, 6]

/-- A three-player end-of-round state (failed defence, original attacker
still in front) used to instantiate the rotation rule. -/
def coRot : EnvState :=
  { (default : EnvState) with
    ring := [0, 1, 2]
    attackingPlayer := 0
    successful := false }

/-! ### Lemmas about the Python-style primitives -/

theorem except_bind_ok {α β : Type} (x : Except PyErr α) (f : α → Except PyErr β)
    (b : β) : (x >>= f) = .ok b ↔ ∃ a, x = .ok a ∧ f a = .ok b := by
  cases x <;> simp [Bind.bind, Except.bind]

theorem pure_ok {α : Type} (a b : α) :
    (pure a : Except PyErr α) = .ok b ↔ a = b := by
  simp [pure, Except.pure]

theorem pyGet_ok_nat {α : Type} (l : List α) (n : Nat) (x : α) :
    pyGet l (n : Int) = .ok x ↔ l[n]? = some x := by
  have h0 : ¬ ((n : Int) < 0) := by omega
  by_cases h : n < l.length
  · rw [List.getElem?_eq_getElem h]
    simp [pyGet, h0, h]
  · rw [List.getElem?_eq_none (by omega)]
    simp [pyGet, h0, h]

theorem pyGet_ok_neg_one {α : Type} (l : List α) (x : α) :
    pyGet l (-1) = .ok x ↔ l.getLast? = some x := by
  rcases l with _ | ⟨a, t⟩
  · simp [pyGet]
  · rw [List.getLast?_eq_getElem?]
    have h2 : (a :: t).length - 1 < (a :: t).length := by simp
    rw [List.getElem?_eq_getElem h2]
    have hc : ((-1 : Int) + ((a :: t).length : Int)).toNat = (a :: t).length - 1 := by
      simp
    have hc0 : (0 : Int) ≤ (-1 : Int) + ((a :: t).length : Int) := by
      simp
    simp [pyGet, hc, hc0, h2]

theorem pyGet_ok_mem {α : Type} (l : List α) (i : Int) (x : α)
    (h : pyGet l i = .ok x) : x ∈ l := by
  simp only [pyGet] at h
  split at h <;> split at h <;>
    first
    | (cases h; exact List.get_mem _ _ _)
    | simp at h

theorem pyIndex_ok_of_get {α : Type} [DecidableEq α] (l : List α) (i : Nat)
    (x : α) (hnd : l.Nodup) (h : l[i]? = some x) : pyIndex l x = .ok i := by
  induction l generalizing i with
  | nil => simp at h
  | cons a t ih =>
    rcases i with _ | i
    · simp at h
      simp [pyIndex, h]
    · rw [List.getElem?_cons_succ] at h
      have hmem : x ∈ t := List.mem_iff_getElem?.2 ⟨i, h⟩
      have hax : ¬ (a = x) := by
        rintro rfl
        exact (List.nodup_cons.1 hnd).1 hmem
      rw [pyIndex, if_neg hax, ih i (List.nodup_cons.1 hnd).2 h]
      simp [Except.map]

/-! ### Membership in the computed legal lists -/

theorem mem_attAppend {att defC : List Card} {acc : List Action} {c : Card}
    {x : Action} (h : x ∈ attAppend att defC acc c) :
    x ∈ acc ∨ (x = some c ∧ c ∉ att ∧ c ∉ defC) := by
  simp only [attAppend] at h
  split at h
  · exact Or.inl h
  next hcond =>
    rw [not_or] at hcond
    by_cases hA : matchesValue att c = true
    · rw [if_pos hA, if_pos (by simp)] at h
      rcases List.mem_append.1 h with h | h
      · exact Or.inl h
      · exact Or.inr ⟨by simpa using h, hcond.1, hcond.2⟩
    · rw [if_neg hA] at h
      by_cases hm : some c ∈ acc
      · rw [if_pos hm] at h
        exact Or.inl h
      · rw [if_neg hm] at h
        by_cases hB : matchesValue defC c = true
        · rw [if_pos hB] at h
          rcases List.mem_append.1 h with h | h
          · exact Or.inl h
          · exact Or.inr ⟨by simpa using h, hcond.1, hcond.2⟩
        · rw [if_neg hB] at h
          exact Or.inl h

theorem subset_attAppend (att defC : List Card) (acc : List Action) (c : Card) :
    acc ⊆ attAppend att defC acc c := by
  intro x hx
  simp only [attAppend]
  split
  · exact hx
  · by_cases hA : matchesValue att c = true
    · rw [if_pos hA, if_pos (by simp)]
      exact List.mem_append_left _ hx
    · rw [if_neg hA]
      by_cases hm : some c ∈ acc
      · rw [if_pos hm]; exact hx
      · rw [if_neg hm]
        by_cases hB : matchesValue defC c = true
        · rw [if_pos hB]; exact List.mem_append_left _ hx
        · rw [if_neg hB]; exact hx

theorem subset_foldl_attAppend (att defC : List Card) (cards : List Card) :
    ∀ acc : List Action, acc ⊆ cards.foldl (attAppend att defC) acc := by
  induction cards with
  | nil => intro acc; simp
  | cons c cs ih =>
    intro acc
    rw [List.foldl_cons]
    exact (subset_attAppend att defC acc c).trans (ih _)

theorem mem_foldl_attAppend (att defC : List Card) (cards : List Card) :
    ∀ (acc : List Action) (x : Action),
      x ∈ cards.foldl (attAppend att defC) acc →
        x ∈ acc ∨ ∃ c : Card, x = some c ∧ c ∈ cards ∧ c ∉ att ∧ c ∉ defC := by
  induction cards with
  | nil =>
    intro acc x h
    exact Or.inl (by simpa using h)
  | cons c cs ih =>
    intro acc x h
    rw [List.foldl_cons] at h
    rcases ih _ x h with h1 | ⟨e, he, hec, hna, hnd⟩
    · rcases mem_attAppend h1 with h2 | ⟨he, hna, hnd⟩
      · exact Or.inl h2
      · exact Or.inr ⟨c, he, List.mem_cons_self _ _, hna, hnd⟩
    · exact Or.inr ⟨e, he, List.mem_cons_of_mem _ hec, hna, hnd⟩

theorem defAppend_eq (trump : Suit) (att defC : List Card) (ld : List Action)
    (c : Card) :
    defAppend trump att defC ld c =
      if defC.length < att.length ∧ c ∉ defC ∧ defBeat trump att c = true then
        ld ++ [some c]
      else ld := by
  simp only [defAppend]
  split_ifs <;> simp_all

theorem mem_foldl_defAppend (trump : Suit) (att defC : List Card)
    (cards : List Card) :
    ∀ (acc : List Action) (x : Action),
      x ∈ cards.foldl (defAppend trump att defC) acc ↔
        x ∈ acc ∨ ∃ c : Card, x = some c ∧ c ∈ cards ∧
          defC.length < att.length ∧ c ∉ defC ∧ defBeat trump att c = true := by
  induction cards with
  | nil => intro acc x; simp
  | cons c cs ih =>
    intro acc x
    rw [List.foldl_cons, ih, defAppend_eq]
    by_cases h : defC.length < att.length ∧ c ∉ defC ∧ defBeat trump att c = true
    · rw [if_pos h]
      simp only [List.mem_append, List.mem_cons, List.not_mem_nil, or_false]
      constructor
      · rintro ((hx | hx) | ⟨e, rfl, hec, hP⟩)
        · exact Or.inl hx
        · exact Or.inr ⟨c, hx, Or.inl rfl, h.1, h.2.1, h.2.2⟩
        · exact Or.inr ⟨e, rfl, Or.inr hec, hP⟩
      · rintro (hx | ⟨e, rfl, (rfl | hec), hP⟩)
        · exact Or.inl (Or.inl hx)
        · exact Or.inl (Or.inr rfl)
        · exact Or.inr ⟨e, rfl, hec, hP⟩
    · rw [if_neg h]
      simp only [List.mem_cons]
      constructor
      · rintro (hx | ⟨e, rfl, hec, hP⟩)
        · exact Or.inl hx
        · exact Or.inr ⟨e, rfl, Or.inr hec, hP⟩
      · rintro (hx | ⟨e, rfl, (rfl | hec), hP⟩)
        · exact Or.inl hx
        · exact absurd ⟨hP.1, hP.2.1, hP.2.2⟩ h
        · exact Or.inr ⟨e, rfl, hec, hP⟩

theorem mem_computedLegalAtt_elim (att defC : List Card) (x : Action)
    (h : x ∈ computedLegalAtt att defC) :
    x = none ∨ ∃ c : Card, x = some c ∧ c ∈ Deck.fullCardList ∧
      (att ≠ [] → c ∉ att ∧ c ∉ defC) := by
  unfold computedLegalAtt at h
  split at h
  next hlen =>
    have hatt : att = [] := List.length_eq_zero.1 hlen
    rcases List.mem_map.1 h with ⟨c, hc, rfl⟩
    exact Or.inr ⟨c, rfl, hc, fun hne => absurd hatt hne⟩
  next hlen =>
    rcases mem_foldl_attAppend _ _ _ _ _ h with h1 | ⟨c, rfl, hc, hna, hnd⟩
    · exact Or.inl (by simp at h1; exact h1)
    · exact Or.inr ⟨c, rfl, hc, fun _ => ⟨hna, hnd⟩⟩

theorem none_mem_computedLegalAtt (att defC : List Card) (hne : att ≠ []) :
    (none : Action) ∈ computedLegalAtt att defC := by
  unfold computedLegalAtt
  rw [if_neg (fun h => hne (List.length_eq_zero.1 h))]
  exact subset_foldl_attAppend _ _ _ _ (by simp)

theorem none_mem_computedLegalDef (trump : Suit) (att defC : List Card) :
    (none : Action) ∈ computedLegalDef trump att defC := by
  unfold computedLegalDef
  split
  · simp
  · exact (mem_foldl_defAppend _ _ _ _ _ _).2 (Or.inl (by simp))

theorem mem_computedLegalDef_iff (trump : Suit) (att defC : List Card)
    (c : Card) (hne : att ≠ []) :
    some c ∈ computedLegalDef trump att defC ↔
      c ∈ Deck.fullCardList ∧ defC.length < att.length ∧ c ∉ defC ∧
        defBeat trump att c = true := by
  unfold computedLegalDef
  rw [if_neg (fun h => hne (List.length_eq_zero.1 h)), mem_foldl_defAppend]
  constructor
  · rintro (h | ⟨e, he, hs⟩)
    · simp at h
    · obtain rfl : c = e := by injection he
      exact ⟨hs.1, hs.2.1, hs.2.2.1, hs.2.2.2⟩
  · rintro ⟨h1, h2, h3, h4⟩
    exact Or.inr ⟨c, rfl, h1, h2, h3, h4⟩

/-! ### Ring rotation lemmas -/

theorem ringMoveBack_perm (l : List Nat) : (ringMoveBack l).Perm l := by
  cases l with
  | nil => simp [ringMoveBack]
  | cons h t =>
    simpa [ringMoveBack] using (@List.perm_append_comm _ t [h])

theorem rotateUntilHead_perm (target fuel : Nat) (l : List Nat) :
    (rotateUntilHead target fuel l).Perm l := by
  induction fuel generalizing l with
  | zero => simp [rotateUntilHead]
  | succ n ih =>
    unfold rotateUntilHead
    split
    · exact .refl _
    · exact (ih _).trans (ringMoveBack_perm l)

theorem setFirstAttacker_perm (hands : Nat → List Card) (trump : Suit)
    (ring : List Nat) : (setFirstAttacker hands trump ring).Perm ring := by
  unfold setFirstAttacker
  split
  · exact .refl _
  · exact rotateUntilHead_perm _ _ _

/-! ### Characterizations of the step fragments -/

theorem pyGet_zero_ok {α : Type} (l : List α) (x : α) :
    pyGet l 0 = .ok x ↔ l[0]? = some x := by
  simpa using pyGet_ok_nat l 0 x

theorem pyGet_one_ok {α : Type} (l : List α) (x : α) :
    pyGet l 1 = .ok x ↔ l[1]? = some x := by
  simpa using pyGet_ok_nat l 1 x

theorem pyGet_cast_add_one {α : Type} (l : List α) (i : Nat) (x : α) :
    pyGet l ((i : Int) + 1) = .ok x ↔ l[i + 1]? = some x := by
  have h : ((i : Int) + 1) = ((i + 1 : Nat) : Int) := by push_cast; ring
  rw [h, pyGet_ok_nat]

theorem doAttackPhase_some (s : EnvState) (c : Card) :
    doAttackPhase (some c) s =
      .ok { s with attackingCards := s.attackingCards ++ [c],
                   attackPhase := false } := rfl

theorem doAttackPhase_none_ok (s t : EnvState)
    (hok : doAttackPhase none s = .ok t) :
    SameCore s t ∧ t.resetRound = s.resetRound ∧
      t.attackPhase = s.attackPhase ∧
      (t.turnPlayer = s.turnPlayer ∨ t.turnPlayer ∈ s.ring) ∧
      ((t.defending = false ∧ t.successful = true) ∨
        (t.defending = s.defending ∧ t.successful = s.successful)) := by
  simp only [doAttackPhase] at hok
  rcases (except_bind_ok _ _ _).1 hok with ⟨lastP, hlast, hok⟩
  split at hok
  · rw [pure_ok] at hok
    subst hok
    refine ⟨⟨rfl, rfl, rfl, rfl, rfl, rfl, rfl, rfl⟩, rfl, rfl, Or.inl rfl, ?_⟩
    exact Or.inl ⟨rfl, rfl⟩
  · rcases (except_bind_ok _ _ _).1 hok with ⟨i, hi, hok⟩
    rcases (except_bind_ok _ _ _).1 hok with ⟨tn, htn, hok⟩
    rcases (except_bind_ok _ _ _).1 hok with ⟨dn, hdn, hok⟩
    split at hok
    · split at hok
      · rcases (except_bind_ok _ _ _).1 hok with ⟨j, hj, hok⟩
        rcases (except_bind_ok _ _ _).1 hok with ⟨t2, ht2, hok⟩
        rw [pure_ok] at hok
        subst hok
        refine ⟨⟨rfl, rfl, rfl, rfl, rfl, rfl, rfl, rfl⟩, rfl, rfl,
          Or.inr (pyGet_ok_mem _ _ _ ht2), Or.inr ⟨rfl, rfl⟩⟩
      · rcases (except_bind_ok _ _ _).1 hok with ⟨j, hj, hok⟩
        rcases (except_bind_ok _ _ _).1 hok with ⟨t2, ht2, hok⟩
        rw [pure_ok] at hok
        subst hok
        refine ⟨⟨rfl, rfl, rfl, rfl, rfl, rfl, rfl, rfl⟩, rfl, rfl,
          Or.inr (pyGet_ok_mem _ _ _ ht2), Or.inl ⟨rfl, rfl⟩⟩
    · rw [pure_ok] at hok
      subst hok
      refine ⟨⟨rfl, rfl, rfl, rfl, rfl, rfl, rfl, rfl⟩, rfl, rfl,
        Or.inr (pyGet_ok_mem _ _ _ htn), Or.inr ⟨rfl, rfl⟩⟩

theorem doDefencePhase_none (s : EnvState) :
    doDefencePhase none s =
      .ok { s with
            defending := false, successful := false
            hands := updHands s.hands s.turnPlayer
              (s.hands s.turnPlayer ++ s.attackingCards ++ s.defendingCards) } :=
  rfl

theorem doDefencePhase_some_ok (s t : EnvState) (c : Card)
    (hok : doDefencePhase (some c) s = .ok t) :
    t.ring = s.ring ∧ t.hands = s.hands ∧ t.deck = s.deck ∧
    t.attackingCards = s.attackingCards ∧
    t.defendingCards = s.defendingCards ++ [c] ∧
    t.attackPhase = true ∧ t.limit = s.limit ∧ t.resetRound = s.resetRound ∧
    t.trumpSuit = s.trumpSuit ∧ t.attackingPlayer = s.attackingPlayer ∧
    t.turnPlayer = s.turnPlayer ∧ t.resetAttacker = true ∧
    (if s.attackingCards.length = (s.defendingCards ++ [c]).length ∧
        (s.defendingCards ++ [c]).length = s.limit then
      t.defending = false ∧ t.successful = true
    else t.defending = s.defending ∧ t.successful = s.successful) := by
  simp only [doDefencePhase] at hok
  split at hok
  next hc =>
    rw [Except.ok.injEq] at hok
    subst hok
    refine ⟨rfl, rfl, rfl, rfl, rfl, rfl, rfl, rfl, rfl, rfl, rfl, rfl, ?_⟩
    rw [if_pos hc]
    exact ⟨rfl, rfl⟩
  next hc =>
    rw [Except.ok.injEq] at hok
    subst hok
    refine ⟨rfl, rfl, rfl, rfl, rfl, rfl, rfl, rfl, rfl, rfl, rfl, rfl, ?_⟩
    rw [if_neg hc]
    exact ⟨rfl, rfl⟩

theorem checkEndRound_not_defending (s : EnvState) (h : s.defending = false) :
    checkEndRound s = .ok { s with resetRound := true } := by
  simp [checkEndRound, h]

theorem checkEndRound_ok (s t : EnvState) (hok : checkEndRound s = .ok t) :
    SameCore s t ∧ t.defending = s.defending ∧ t.successful = s.successful ∧
      t.attackPhase = s.attackPhase ∧ t.resetAttacker = s.resetAttacker ∧
      (t.turnPlayer = s.turnPlayer ∨ t.turnPlayer ∈ s.ring) ∧
      (s.defending = true → t.resetRound = s.resetRound) ∧
      (s.defending = false → t.resetRound = true) := by
  simp only [checkEndRound] at hok
  split at hok
  next hdf =>
    rw [Except.ok.injEq] at hok
    subst hok
    exact ⟨⟨rfl, rfl, rfl, rfl, rfl, rfl, rfl, rfl⟩, rfl, rfl, rfl, rfl,
      Or.inl rfl, fun h => absurd hdf (by simp [h]), fun _ => rfl⟩
  next hdf =>
    split at hok
    · rcases (except_bind_ok _ _ _).1 hok with ⟨p, hp, hok⟩
      rw [pure_ok] at hok
      subst hok
      exact ⟨⟨rfl, rfl, rfl, rfl, rfl, rfl, rfl, rfl⟩, rfl, rfl, rfl, rfl,
        Or.inr (pyGet_ok_mem _ _ _ hp), fun _ => rfl, fun h => absurd h hdf⟩
    · split at hok
      · rcases (except_bind_ok _ _ _).1 hok with ⟨p, hp, hok⟩
        rw [pure_ok] at hok
        subst hok
        exact ⟨⟨rfl, rfl, rfl, rfl, rfl, rfl, rfl, rfl⟩, rfl, rfl, rfl, rfl,
          Or.inr (pyGet_ok_mem _ _ _ hp), fun _ => rfl, fun h => absurd h hdf⟩
      · rw [Except.ok.injEq] at hok
        subst hok
        exact ⟨⟨rfl, rfl, rfl, rfl, rfl, rfl, rfl, rfl⟩, rfl, rfl, rfl, rfl,
          Or.inl rfl, fun _ => rfl, fun h => absurd h hdf⟩

theorem updHands_subset (h : Nat → List Card) (p : Nat) (v : List Card)
    (hh : ∀ q, h q ⊆ Deck.fullCardList) (hv : v ⊆ Deck.fullCardList) :
    ∀ q, updHands h p v q ⊆ Deck.fullCardList := by
  intro q
  unfold updHands
  split
  · exact hv
  · exact hh q

theorem foldl_refillOne_spec (ps : List Nat) :
    ∀ hd : (Nat → List Card) × List Card,
      (∀ p, hd.1 p ⊆ Deck.fullCardList) → hd.2 ⊆ Deck.fullCardList →
      (∀ p, (ps.foldl refillOne hd).1 p ⊆ Deck.fullCardList) ∧
        (ps.foldl refillOne hd).2 ⊆ Deck.fullCardList := by
  induction ps with
  | nil => intro hd hh hdk; exact ⟨hh, hdk⟩
  | cons p ps ih =>
    intro hd hh hdk
    rw [List.foldl_cons]
    refine ih _ ?_ ?_
    · refine updHands_subset _ _ _ hh ?_
      intro x hx
      rcases List.mem_append.1 hx with hx | hx
      · exact hh p hx
      · exact hdk (List.mem_of_mem_take hx)
    · intro x hx
      exact hdk (List.mem_of_mem_drop hx)

theorem refillOne_ne_nil (hd : (Nat → List Card) × List Card) (q p : Nat)
    (h : hd.1 p ≠ []) : (refillOne hd q).1 p ≠ [] := by
  simp only [refillOne]
  show updHands hd.1 q _ p ≠ []
  unfold updHands
  split
  next hpq =>
    subst hpq
    intro hc
    exact h (List.append_eq_nil.1 hc).1
  · exact h

theorem foldl_refillOne_ne_nil (ps : List Nat) :
    ∀ (hd : (Nat → List Card) × List Card) (p : Nat), hd.1 p ≠ [] →
      (ps.foldl refillOne hd).1 p ≠ [] := by
  induction ps with
  | nil => intro hd p h; exact h
  | cons q ps ih =>
    intro hd p h
    rw [List.foldl_cons]
    exact ih _ p (refillOne_ne_nil hd q p h)

theorem updatePlayersHands_ok (s t : EnvState)
    (hok : updatePlayersHands s = .ok t)
    (hh : ∀ p, s.hands p ⊆ Deck.fullCardList)
    (hdk : s.deck ⊆ Deck.fullCardList) :
    t.ring = s.ring ∧ t.attackingCards = s.attackingCards ∧
      t.defendingCards = s.defendingCards ∧ t.limit = s.limit ∧
      t.trumpSuit = s.trumpSuit ∧ t.attackingPlayer = s.attackingPlayer ∧
      t.turnPlayer = s.turnPlayer ∧ t.defending = s.defending ∧
      t.successful = s.successful ∧ t.attackPhase = s.attackPhase ∧
      t.resetRound = s.resetRound ∧
      (∀ p, t.hands p ⊆ Deck.fullCardList) ∧ t.deck ⊆ Deck.fullCardList ∧
      (∀ p, s.hands p ≠ [] → t.hands p ≠ []) := by
  simp only [updatePlayersHands] at hok
  rcases (except_bind_ok _ _ _).1 hok with ⟨d, hd, hok⟩
  rw [pure_ok] at hok
  subst hok
  have h1 := foldl_refillOne_spec (s.ring.take 1 ++ s.ring.drop 2)
    (s.hands, s.deck) hh hdk
  refine ⟨rfl, rfl, rfl, rfl, rfl, rfl, rfl, rfl, rfl, rfl, rfl, ?_, ?_, ?_⟩
  · refine updHands_subset _ _ _ h1.1 ?_
    intro x hx
    rcases List.mem_append.1 hx with hx | hx
    · exact h1.1 _ hx
    · exact h1.2 (List.mem_of_mem_take hx)
  · intro x hx
    exact h1.2 (List.mem_of_mem_drop hx)
  · intro p hp
    exact refillOne_ne_nil _ d p
      (foldl_refillOne_ne_nil (s.ring.take 1 ++ s.ring.drop 2)
        (s.hands, s.deck) p hp)

theorem updatePlayersHands_err (s : EnvState) (h : s.ring.length < 2) :
    ∀ t, updatePlayersHands s ≠ .ok t := by
  intro t hok
  simp only [updatePlayersHands] at hok
  rcases (except_bind_ok _ _ _).1 hok with ⟨d, hd, hok⟩
  rw [pyGet_one_ok] at hd
  have := List.getElem?_eq_none (l := s.ring) (n := 1) (by omega)
  rw [this] at hd
  cases hd

theorem updateActivePlayersOrder_spec (s : EnvState) :
    (updateActivePlayersOrder s).ring.Perm s.ring ∧
      (updateActivePlayersOrder s).hands = s.hands ∧
      (updateActivePlayersOrder s).deck = s.deck ∧
      (updateActivePlayersOrder s).attackingCards = s.attackingCards ∧
      (updateActivePlayersOrder s).defendingCards = s.defendingCards ∧
      (updateActivePlayersOrder s).limit = s.limit ∧
      (updateActivePlayersOrder s).trumpSuit = s.trumpSuit ∧
      (updateActivePlayersOrder s).defending = s.defending ∧
      (updateActivePlayersOrder s).successful = s.successful ∧
      (updateActivePlayersOrder s).attackPhase = s.attackPhase ∧
      (updateActivePlayersOrder s).resetRound = s.resetRound ∧
      (updateActivePlayersOrder s).turnPlayer = s.turnPlayer := by
  unfold updateActivePlayersOrder
  split
  · exact ⟨.refl _, rfl, rfl, rfl, rfl, rfl, rfl, rfl, rfl, rfl, rfl, rfl⟩
  · split
    · simp only [moveAttackerBack]
      split
      · split <;>
          exact ⟨(ringMoveBack_perm _).trans (by first
              | exact ringMoveBack_perm _
              | exact .refl _), rfl, rfl, rfl, rfl, rfl, rfl, rfl, rfl, rfl, rfl,
            rfl⟩
      · split <;>
          exact ⟨by first
              | exact ringMoveBack_perm _
              | exact .refl _, rfl, rfl, rfl, rfl, rfl, rfl, rfl, rfl, rfl, rfl,
            rfl⟩
    · exact ⟨.refl _, rfl, rfl, rfl, rfl, rfl, rfl, rfl, rfl, rfl, rfl, rfl⟩

theorem doResetRound_ok (s t : EnvState) (hok : doResetRound s = .ok t) :
    ∃ a d, s.ring[0]? = some a ∧ s.ring[1]? = some d ∧
      t = { s with
            attackingCards := [], defendingCards := []
            legalAttackingCards := [], legalDefendingCards := []
            turnPlayer := a, attackingPlayer := a
            defending := true, successful := false
            limit := min HAND_SIZE (s.hands d).length
            attackPhase := true, resetAttacker := true, resetRound := false } := by
  simp only [doResetRound] at hok
  rcases (except_bind_ok _ _ _).1 hok with ⟨a, ha, hok⟩
  rcases (except_bind_ok _ _ _).1 hok with ⟨d, hd, hok⟩
  rw [pure_ok] at hok
  exact ⟨a, d, (pyGet_zero_ok _ _).1 ha, (pyGet_one_ok _ _).1 hd, hok.symm⟩

/-! ### Round resolution preserves the structural invariant -/

theorem removeWinners_ring (s : EnvState) :
    (removeWinners s).ring = s.ring.filter (fun p => (s.hands p).length != 0) :=
  rfl

theorem resolveRound_inv (s2 s3 : EnvState)
    (hnd : s2.ring.Nodup) (hlen : 2 ≤ s2.ring.length)
    (hh : ∀ p, s2.hands p ⊆ Deck.fullCardList)
    (hdk : s2.deck ⊆ Deck.fullCardList)
    (hatt : s2.attackingCards ⊆ Deck.fullCardList)
    (hdefc : s2.defendingCards ⊆ Deck.fullCardList)
    (hemp : s2.attackingCards = [] →
      s2.defendingCards = [] ∧ s2.attackPhase = true)
    (hturnne : s2.hands s2.turnPlayer ≠ [])
    (hdf : s2.defending = false)
    (hok : resolveRound s2 = .ok s3) : StateInv s3 := by
  simp only [resolveRound] at hok
  rcases (except_bind_ok _ _ _).1 hok with ⟨t1, ht1, hok⟩
  obtain ⟨e_ring, e_att, e_def, e_lim, e_tr, e_apl, e_tp, e_df, e_su, e_ap,
    e_rr, h1h, h1d, h1ne⟩ := updatePlayersHands_ok s2 t1 ht1 hh hdk
  have hok2 : (if gameOver (updateActivePlayersOrder (removeWinners t1)) = false
      then doResetRound (updateActivePlayersOrder (removeWinners t1))
      else pure (updateActivePlayersOrder (removeWinners t1))) = .ok s3 := hok
  obtain ⟨p3, f_h, f_d, f_att, f_def, f_lim, f_tr, f_df, f_su, f_ap, f_rr,
    f_tp⟩ := updateActivePlayersOrder_spec (removeWinners t1)
  have hring3 : (updateActivePlayersOrder (removeWinners t1)).ring.Perm
      (t1.ring.filter (fun p => (t1.hands p).length != 0)) := by
    rw [← removeWinners_ring]; exact p3
  have hnd3 : (updateActivePlayersOrder (removeWinners t1)).ring.Nodup :=
    hring3.nodup_iff.2 (by rw [e_ring]; exact hnd.filter _)
  have hmem3 : ∀ p ∈ (updateActivePlayersOrder (removeWinners t1)).ring,
      (t1.hands p).length ≠ 0 := by
    intro p hp
    have := hring3.subset hp
    exact bne_iff_ne.1 (List.mem_filter.1 this).2
  by_cases hg : gameOver (updateActivePlayersOrder (removeWinners t1)) = false
  · rw [if_pos hg] at hok2
    obtain ⟨a, d, hga, hgd, hs3⟩ := doResetRound_ok _ _ hok2
    subst hs3
    have hlen3 : 2 ≤ (updateActivePlayersOrder (removeWinners t1)).ring.length := by
      by_contra hc
      push_neg at hc
      have hgt : gameOver (updateActivePlayersOrder (removeWinners t1)) = true :=
        decide_eq_true (by simpa [MIN_PLAYERS] using hc)
      rw [hgt] at hg
      simp at hg
    have hdmem : d ∈ (updateActivePlayersOrder (removeWinners t1)).ring :=
      List.getElem?_mem hgd
    have hdlen : ((updateActivePlayersOrder (removeWinners t1)).hands d).length ≠
        0 := by
      rw [f_h]
      exact hmem3 d hdmem
    refine ⟨hnd3, ?_, ?_, ?_, ?_, ?_, ?_, ?_, ?_, ?_⟩
    · rw [f_d]; exact h1d
    · intro p; rw [f_h]; exact h1h p
    · intro p hp
      rw [f_h]
      intro hc
      exact hmem3 p hp (List.length_eq_zero.2 hc)
    · rw [f_h]
      intro hc
      exact hmem3 a (List.getElem?_mem hga) (List.length_eq_zero.2 hc)
    · simp
    · simp
    · intro _; exact ⟨rfl, rfl⟩
    · intro h; cases h
    · intro _
      refine ⟨hlen3, ?_, ?_, rfl, ?_, ?_⟩
      · exact List.getElem?_mem hga
      · refine Nat.le_min.2 ⟨by norm_num [HAND_SIZE], by omega⟩
      · intro _
        constructor
        · rfl
        · show 0 < min HAND_SIZE _
          have h1 : 1 ≤ min HAND_SIZE
              ((updateActivePlayersOrder (removeWinners t1)).hands d).length :=
            Nat.le_min.2 ⟨by norm_num [HAND_SIZE], by omega⟩
          omega
      · intro h; cases h
  · rw [if_neg hg, pure_ok] at hok2
    subst hok2
    have hg2 : (updateActivePlayersOrder (removeWinners t1)).ring.length < 2 := by
      have : gameOver (updateActivePlayersOrder (removeWinners t1)) = true := by
        cases hgb : gameOver (updateActivePlayersOrder (removeWinners t1))
        · exact absurd hgb hg
        · rfl
      simpa [gameOver, MIN_PLAYERS] using of_decide_eq_true this

    refine ⟨hnd3, ?_, ?_, ?_, ?_, ?_, ?_, ?_, ?_, ?_⟩
    · rw [f_d]; exact h1d
    · intro p; rw [f_h]; exact h1h p
    · intro p hp
      rw [f_h]
      intro hc
      exact hmem3 p hp (List.length_eq_zero.2 hc)
    · rw [f_h, f_tp]
      show t1.hands t1.turnPlayer ≠ []
      rw [e_tp]
      exact h1ne _ hturnne
    · rw [f_att]
      show t1.attackingCards ⊆ Deck.fullCardList
      rw [e_att]; exact hatt
    · rw [f_def]
      show t1.defendingCards ⊆ Deck.fullCardList
      rw [e_def]; exact hdefc
    · rw [f_att, f_def, f_ap]
      show t1.attackingCards = [] →
        t1.defendingCards = [] ∧ t1.attackPhase = true
      rw [e_att, e_def, e_ap]; exact hemp
    · intro _; exact hg2
    · intro h
      rw [f_df] at h
      have h2 : s2.defending = true := by rw [← e_df]; exact h
      rw [h2] at hdf
      cases hdf

/-! ### A concluded game cannot be stepped -/

theorem tail_err (s1 : EnvState) (hr : s1.ring.length < 2)
    (hd1 : s1.defending = false)
    (f : EnvState → Except PyErr (EnvState × Int × Bool))
    (res : EnvState × Int × Bool) :
    (checkEndRound s1 >>= fun s2 =>
      if s2.resetRound = true then resolveRound s2 >>= f
      else pure s2 >>= f) ≠ .ok res := by
  intro hok
  rcases (except_bind_ok _ _ _).1 hok with ⟨s2, hce, hok⟩
  obtain ⟨⟨hr2, -, -, -, -, -, -, -⟩, -, -, -, -, -, -, hrr⟩ :=
    checkEndRound_ok s1 s2 hce
  rw [if_pos (hrr hd1)] at hok
  rcases (except_bind_ok _ _ _).1 hok with ⟨s3, hre, -⟩
  simp only [resolveRound] at hre
  rcases (except_bind_ok _ _ _).1 hre with ⟨t1, ht1, -⟩
  refine updatePlayersHands_err s2 ?_ t1 ht1
  rw [hr2]
  exact hr

theorem step_err_after_end (s : EnvState) (hring : s.ring.length < 2)
    (hdf : s.defending = false) (a : Action) :
    ∀ res, step s a ≠ .ok res := by
  intro res hok
  simp only [step] at hok
  by_cases hap : s.attackPhase = true
  · rw [if_pos hap] at hok
    rcases (except_bind_ok _ _ _).1 hok with ⟨s1, hph, hok⟩
    have h1 : s1.ring = s.ring ∧ s1.defending = false := by
      cases a with
      | some c =>
        rw [doAttackPhase_some, Except.ok.injEq] at hph
        subst hph
        exact ⟨rfl, hdf⟩
      | none =>
        obtain ⟨⟨hr, -, -, -, -, -, -, -⟩, -, -, -, hd⟩ :=
          doAttackPhase_none_ok s s1 hph
        rcases hd with ⟨hd, -⟩ | ⟨hd, -⟩
        · exact ⟨hr, hd⟩
        · exact ⟨hr, by rw [hd]; exact hdf⟩
    exact tail_err s1 (by rw [h1.1]; exact hring) h1.2 _ res hok
  · rw [if_neg hap] at hok
    rcases (except_bind_ok _ _ _).1 hok with ⟨s1, hph, hok⟩
    have h1 : s1.ring = s.ring ∧ s1.defending = false := by
      cases a with
      | some c =>
        obtain ⟨hr, -, -, -, -, -, -, -, -, -, -, -, hite⟩ :=
          doDefencePhase_some_ok s s1 c hph
        split at hite
        · exact ⟨hr, hite.1⟩
        · exact ⟨hr, by rw [hite.1]; exact hdf⟩
      | none =>
        rw [doDefencePhase_none, Except.ok.injEq] at hph
        subst hph
        exact ⟨rfl, rfl⟩
    exact tail_err s1 (by rw [h1.1]; exact hring) h1.2 _ res hok

/-! ### The full invariant survives one step -/

theorem envInv_updateLegalCards (t : EnvState) (h : StateInv t) :
    EnvInv (updateLegalCards t) :=
  ⟨h, rfl, rfl⟩

theorem tail_ok_inv (s1 : EnvState) (r : Int) (res : EnvState × Int × Bool)
    (hnd1 : s1.ring.Nodup) (hlen1 : 2 ≤ s1.ring.length)
    (hh1 : ∀ p, s1.hands p ⊆ Deck.fullCardList)
    (hdk1 : s1.deck ⊆ Deck.fullCardList)
    (hatt1 : s1.attackingCards ⊆ Deck.fullCardList)
    (hdefc1 : s1.defendingCards ⊆ Deck.fullCardList)
    (hemp1 : s1.attackingCards = [] →
      s1.defendingCards = [] ∧ s1.attackPhase = true)
    (hne1 : ∀ p ∈ s1.ring, s1.hands p ≠ [])
    (htne1 : s1.hands s1.turnPlayer ≠ [])
    (hcase : s1.defending = false ∨
      (s1.defending = true ∧ s1.resetRound = false ∧ s1.turnPlayer ∈ s1.ring ∧
        1 ≤ s1.limit ∧
        (s1.attackPhase = true →
          s1.attackingCards.length = s1.defendingCards.length ∧
          s1.attackingCards.length < s1.limit) ∧
        (s1.attackPhase = false →
          s1.attackingCards.length = s1.defendingCards.length + 1 ∧
          s1.attackingCards.length ≤ s1.limit)))
    (hok : (checkEndRound s1 >>= fun s2 =>
        if s2.resetRound = true then
          resolveRound s2 >>= fun y =>
            pure (updateLegalCards y, r, gameOver (updateLegalCards y))
        else pure s2 >>= fun y =>
          pure (updateLegalCards y, r, gameOver (updateLegalCards y))) =
      .ok res) :
    EnvInv res.1 := by
  rcases (except_bind_ok _ _ _).1 hok with ⟨s2, hce, hok⟩
  obtain ⟨⟨c_ring, c_hands, c_deck, c_att, c_def, c_lim, c_tr, c_apl⟩, hdf2,
    hsu2, hap2, hra2, hturn2, hrrT, hrrF⟩ := checkEndRound_ok s1 s2 hce
  rcases hcase with hdf1 | ⟨hdf1, hrr1, hturn1, hlim1, hapc1, hapc2⟩
  · rw [if_pos (hrrF hdf1)] at hok
    rcases (except_bind_ok _ _ _).1 hok with ⟨s3, hre, hok⟩
    have hS3 : StateInv s3 := by
      refine resolveRound_inv s2 s3 ?_ ?_ ?_ ?_ ?_ ?_ ?_ ?_ ?_ hre
      · rw [c_ring]; exact hnd1
      · rw [c_ring]; exact hlen1
      · intro p; rw [c_hands]; exact hh1 p
      · rw [c_deck]; exact hdk1
      · rw [c_att]; exact hatt1
      · rw [c_def]; exact hdefc1
      · rw [c_att, c_def, hap2]; exact hemp1
      · rw [c_hands]
        rcases hturn2 with h | h
        · rw [h]; exact htne1
        · exact hne1 _ h
      · rw [hdf2]; exact hdf1
    rw [pure_ok] at hok
    subst hok
    exact envInv_updateLegalCards s3 hS3
  · have hrr2 : s2.resetRound = false := by rw [hrrT hdf1]; exact hrr1
    rw [if_neg (by simp [hrr2])] at hok
    rcases (except_bind_ok _ _ _).1 hok with ⟨y, hy, hok⟩
    rw [pure_ok] at hy
    subst hy
    rw [pure_ok] at hok
    subst hok
    refine envInv_updateLegalCards s2 ⟨?_, ?_, ?_, ?_, ?_, ?_, ?_, ?_, ?_, ?_⟩
    · rw [c_ring]; exact hnd1
    · rw [c_deck]; exact hdk1
    · intro p; rw [c_hands]; exact hh1 p
    · intro p hp
      rw [c_ring] at hp
      rw [c_hands]
      exact hne1 p hp
    · rw [c_hands]
      rcases hturn2 with h | h
      · rw [h]; exact htne1
      · exact hne1 _ h
    · rw [c_att]; exact hatt1
    · rw [c_def]; exact hdefc1
    · rw [c_att, c_def, hap2]; exact hemp1
    · intro h
      rw [hdf2, hdf1] at h
      cases h
    · intro _
      refine ⟨?_, ?_, ?_, hrr2, ?_, ?_⟩
      · rw [c_ring]; exact hlen1
      · rw [c_ring]
        rcases hturn2 with h | h
        · rw [h]; exact hturn1
        · exact h
      · rw [c_lim]; exact hlim1
      · rw [hap2, c_att, c_def, c_lim]; exact hapc1
      · rw [hap2, c_att, c_def, c_lim]; exact hapc2

theorem step_inv (s : EnvState) (a : Action) (s' : EnvState) (r : Int)
    (d : Bool) (hI : EnvInv s) (ha : LegalAction s a)
    (hok : step s a = .ok (s', r, d)) : EnvInv s' := by
  obtain ⟨hS, hLA, hLD⟩ := hI
  obtain ⟨hnd, hdk, hh, hne, htne, hatt, hdefc, hemp, hdfF, hdfT⟩ := hS
  by_cases hdf : s.defending = true
  case neg =>
    have hdf2 : s.defending = false := by
      revert hdf; cases s.defending <;> simp
    exact absurd hok (step_err_after_end s (hdfF hdf2) hdf2 a (s', r, d))
  obtain ⟨hlen, hturn, hlim, hrr0, hapT, hapF⟩ := hdfT hdf
  simp only [step] at hok
  by_cases hap : s.attackPhase = true
  · rw [if_pos hap] at hok
    cases a with
    | some c =>
      rcases (except_bind_ok _ _ _).1 hok with ⟨s1, hph, hok2⟩
      rw [doAttackPhase_some, Except.ok.injEq] at hph
      have hr1 : s1.ring = s.ring := by rw [← hph]
      have hh1 : s1.hands = s.hands := by rw [← hph]
      have hd1 : s1.deck = s.deck := by rw [← hph]
      have ha1 : s1.attackingCards = s.attackingCards ++ [c] := by rw [← hph]
      have hde1 : s1.defendingCards = s.defendingCards := by rw [← hph]
      have hl1 : s1.limit = s.limit := by rw [← hph]
      have hrr1 : s1.resetRound = s.resetRound := by rw [← hph]
      have hdz1 : s1.defending = s.defending := by rw [← hph]
      have htp1 : s1.turnPlayer = s.turnPlayer := by rw [← hph]
      have hap1 : s1.attackPhase = false := by rw [← hph]
      have hcfull : c ∈ Deck.fullCardList := by
        have hmem : some c ∈ s.legalAttackingCards := by
          simpa [LegalAction, hap] using ha
        rw [hLA] at hmem
        rcases mem_computedLegalAtt_elim _ _ _ hmem with h | ⟨e, he, hef, -⟩
        · cases h
        · obtain rfl : c = e := by injection he
          exact hef
      refine (tail_ok_inv s1 _ (s', r, d) ?_ ?_ ?_ ?_ ?_ ?_ ?_ ?_ ?_ ?_ hok2 :
        EnvInv (s', r, d).1)
      · rw [hr1]; exact hnd
      · rw [hr1]; exact hlen
      · intro p; rw [hh1]; exact hh p
      · rw [hd1]; exact hdk
      · rw [ha1]
        exact List.append_subset.2 ⟨hatt, by simpa using hcfull⟩
      · rw [hde1]; exact hdefc
      · rw [ha1]
        intro h
        exact absurd h (by simp)
      · intro p hp
        rw [hr1] at hp
        rw [hh1]
        exact hne p hp
      · rw [hh1, htp1]
        exact htne
      · refine Or.inr ⟨by rw [hdz1]; exact hdf, by rw [hrr1]; exact hrr0,
          by rw [hr1, htp1]; exact hturn, by rw [hl1]; exact hlim, ?_, ?_⟩
        · intro h
          rw [hap1] at h
          cases h
        · intro _
          obtain ⟨he, hl⟩ := hapT hap
          rw [ha1, hde1, hl1]
          constructor
          · simp [he]
          · simp only [List.length_append, List.length_cons, List.length_nil]
            omega
    | none =>
      rcases (except_bind_ok _ _ _).1 hok with ⟨s1, hph, hok2⟩
      obtain ⟨⟨hr1, hh1, hd1, ha1, hde1, hl1, ht1, hap1l⟩, hrr1, hap1, hturn1,
        hcase1⟩ := doAttackPhase_none_ok s s1 hph
      refine (tail_ok_inv s1 _ (s', r, d) ?_ ?_ ?_ ?_ ?_ ?_ ?_ ?_ ?_ ?_ hok2 :
        EnvInv (s', r, d).1)
      · rw [hr1]; exact hnd
      · rw [hr1]; exact hlen
      · intro p; rw [hh1]; exact hh p
      · rw [hd1]; exact hdk
      · rw [ha1]; exact hatt
      · rw [hde1]; exact hdefc
      · rw [ha1, hde1, hap1]; exact hemp
      · intro p hp
        rw [hr1] at hp
        rw [hh1]
        exact hne p hp
      · rw [hh1]
        rcases hturn1 with h | h
        · rw [h]; exact htne
        · exact hne _ h
      · rcases hcase1 with ⟨hdz, -⟩ | ⟨hdz, -⟩
        · exact Or.inl hdz
        · refine Or.inr ⟨by rw [hdz]; exact hdf, by rw [hrr1]; exact hrr0, ?_,
            by rw [hl1]; exact hlim, ?_, ?_⟩
          · rcases hturn1 with h | h
            · rw [h, hr1]; exact hturn
            · rw [hr1]; exact h
          · rw [hap1, ha1, hde1, hl1]; exact hapT
          · rw [hap1, ha1, hde1, hl1]; exact hapF
  · rw [if_neg hap] at hok
    have hapf : s.attackPhase = false := by
      revert hap; cases s.attackPhase <;> simp
    have hattne : s.attackingCards ≠ [] := by
      obtain ⟨he, -⟩ := hapF hapf
      intro h
      rw [h] at he
      simp at he
    cases a with
    | some c =>
      rcases (except_bind_ok _ _ _).1 hok with ⟨s1, hph, hok2⟩
      obtain ⟨hr1, hh1, hd1, ha1, hde1, hap1, hl1, hrr1, ht1, hapl1, htp1,
        hra1, hite⟩ := doDefencePhase_some_ok s s1 c hph
      have hcfull : c ∈ Deck.fullCardList := by
        have hmem : some c ∈ s.legalDefendingCards := by
          simpa [LegalAction, hapf] using ha
        rw [hLD] at hmem
        exact ((mem_computedLegalDef_iff _ _ _ _ hattne).1 hmem).1
      refine (tail_ok_inv s1 _ (s', r, d) ?_ ?_ ?_ ?_ ?_ ?_ ?_ ?_ ?_ ?_ hok2 :
        EnvInv (s', r, d).1)
      · rw [hr1]; exact hnd
      · rw [hr1]; exact hlen
      · intro p; rw [hh1]; exact hh p
      · rw [hd1]; exact hdk
      · rw [ha1]; exact hatt
      · rw [hde1]
        exact List.append_subset.2 ⟨hdefc, by simpa using hcfull⟩
      · rw [ha1]
        intro h
        exact absurd h hattne
      · intro p hp
        rw [hr1] at hp
        rw [hh1]
        exact hne p hp
      · rw [hh1, htp1]
        exact htne
      · split at hite
        · exact Or.inl hite.1
        next hcond =>
          obtain ⟨he, hl⟩ := hapF hapf
          refine Or.inr ⟨by rw [hite.1]; exact hdf, by rw [hrr1]; exact hrr0,
            by rw [hr1, htp1]; exact hturn, by rw [hl1]; exact hlim, ?_, ?_⟩
          · intro _
            rw [ha1, hde1, hl1]
            have hne : s.attackingCards.length ≠ s.limit := by
              intro hc
              exact hcond ⟨by simp [he], by simp [he] at hc ⊢; omega⟩
            constructor
            · simp [he]
            · omega
          · intro h
            rw [hap1] at h
            cases h
    | none =>
      rcases (except_bind_ok _ _ _).1 hok with ⟨s1, hph, hok2⟩
      rw [doDefencePhase_none, Except.ok.injEq] at hph
      have hr1 : s1.ring = s.ring := by rw [← hph]
      have hd1 : s1.deck = s.deck := by rw [← hph]
      have ha1 : s1.attackingCards = s.attackingCards := by rw [← hph]
      have hde1 : s1.defendingCards = s.defendingCards := by rw [← hph]
      have hdz1 : s1.defending = false := by rw [← hph]
      have hh1 : s1.hands = updHands s.hands s.turnPlayer
          (s.hands s.turnPlayer ++ s.attackingCards ++ s.defendingCards) := by
        rw [← hph]
      have htp1 : s1.turnPlayer = s.turnPlayer := by rw [← hph]
      refine (tail_ok_inv s1 _ (s', r, d) ?_ ?_ ?_ ?_ ?_ ?_ ?_ ?_ ?_
        (Or.inl hdz1) hok2 : EnvInv (s', r, d).1)
      · rw [hr1]; exact hnd
      · rw [hr1]; exact hlen
      · intro p
        rw [hh1]
        refine updHands_subset _ _ _ hh ?_ p
        intro x hx
        rcases List.mem_append.1 hx with hx | hx
        · rcases List.mem_append.1 hx with hx | hx
          · exact hh _ hx
          · exact hatt hx
        · exact hdefc hx
      · rw [hd1]; exact hdk
      · rw [ha1]; exact hatt
      · rw [hde1]; exact hdefc
      · rw [ha1]
        intro h
        exact absurd h hattne
      · intro p hp
        rw [hr1] at hp
        rw [hh1]
        unfold updHands
        split
        · intro hc
          exact htne (List.append_eq_nil.1 (List.append_eq_nil.1 hc).1).1
        · exact hne p hp
      · rw [hh1, htp1]
        unfold updHands
        rw [if_pos rfl]
        intro hc
        exact htne (List.append_eq_nil.1 (List.append_eq_nil.1 hc).1).1

/-! ### The deal loop and reset establish the invariant -/

theorem dealCards_stable (order : List Nat) :
    ∀ (hands : Nat → List Card) (deck : List Card) (p : Nat), p ∉ order →
      (dealCards hands deck order).1 p = hands p := by
  induction order with
  | nil => intro hands deck p _; rfl
  | cons q rest ih =>
    intro hands deck p hp
    have hpq : ¬ (p = q) := fun h => hp (h ▸ List.mem_cons_self q rest)
    simp only [dealCards]
    split
    · show updHands hands q _ p = hands p
      unfold updHands
      rw [if_neg hpq]
    · rw [ih _ _ p (fun h => hp (List.mem_cons_of_mem _ h))]
      show updHands hands q _ p = hands p
      unfold updHands
      rw [if_neg hpq]

theorem dealCards_legal (order : List Nat) :
    ∀ (hands : Nat → List Card) (deck : List Card), order.Nodup →
      (dealCards hands deck order).2.2 = false →
      ∀ p ∈ order,
        is_starting_hand_legal HAND_SIZE ((dealCards hands deck order).1 p) =
          true := by
  induction order with
  | nil => intro _ _ _ _ p hp; simp at hp
  | cons q rest ih =>
    intro hands deck hnd hfalse p hp
    obtain ⟨hqr, hndr⟩ := List.nodup_cons.1 hnd
    simp only [dealCards] at hfalse ⊢
    split at hfalse
    · simp at hfalse
    next hcond =>
      rw [if_neg hcond]
      rcases List.mem_cons.1 hp with rfl | hp2
      · rw [dealCards_stable rest _ _ p hqr]
        cases hb : is_starting_hand_legal HAND_SIZE
            (updHands hands p (hands p ++ (Deck.draw HAND_SIZE deck).1) p) with
        | false => exact absurd hb hcond
        | true => rfl
      · exact ih _ _ hndr hfalse p hp2

theorem dealCards_sub (order : List Nat) :
    ∀ (hands : Nat → List Card) (deck : List Card),
      (∀ p, hands p ⊆ Deck.fullCardList) → deck ⊆ Deck.fullCardList →
      (∀ p, (dealCards hands deck order).1 p ⊆ Deck.fullCardList) ∧
        (dealCards hands deck order).2.1 ⊆ Deck.fullCardList := by
  induction order with
  | nil => exact fun hands deck hh hd => ⟨hh, hd⟩
  | cons q rest ih =>
    intro hands deck hh hd
    have hh1 : ∀ p, updHands hands q (hands q ++ (Deck.draw HAND_SIZE deck).1) p
        ⊆ Deck.fullCardList := by
      refine updHands_subset _ _ _ hh ?_
      intro x hx
      rcases List.mem_append.1 hx with hx | hx
      · exact hh q hx
      · exact hd (List.mem_of_mem_take hx)
    have hd1 : (Deck.draw HAND_SIZE deck).2 ⊆ Deck.fullCardList := by
      intro x hx
      exact hd (List.mem_of_mem_drop hx)
    simp only [dealCards]
    split
    · exact ⟨hh1, hd1⟩
    · exact ih _ _ hh1 hd1

theorem dealCards_len (order : List Nat) :
    ∀ (hands : Nat → List Card) (deck : List Card), order.Nodup →
      HAND_SIZE * order.length ≤ deck.length →
      (dealCards hands deck order).2.2 = false →
      ∀ p ∈ order, ((dealCards hands deck order).1 p).length =
        (hands p).length + HAND_SIZE := by
  induction order with
  | nil => intro _ _ _ _ _ p hp; simp at hp
  | cons q rest ih =>
    intro hands deck hnd hdlen hfalse p hp
    obtain ⟨hqr, hndr⟩ := List.nodup_cons.1 hnd
    have hdlen' : 6 * (rest.length + 1) ≤ deck.length := by
      simpa [HAND_SIZE] using hdlen
    have htake : ((Deck.draw HAND_SIZE deck).1).length = HAND_SIZE := by
      simp only [Deck.draw, List.length_take, HAND_SIZE]
      omega
    have hdrop : ((Deck.draw HAND_SIZE deck).2).length =
        deck.length - HAND_SIZE := by
      simp [Deck.draw]
    simp only [dealCards] at hfalse ⊢
    split at hfalse
    · simp at hfalse
    next hcond =>
      rw [if_neg hcond]
      rcases List.mem_cons.1 hp with rfl | hp2
      · rw [dealCards_stable rest _ _ p hqr]
        show (updHands hands p _ p).length = _
        unfold updHands
        rw [if_pos rfl]
        simp [htake]
      · have hrec := ih (updHands hands q (hands q ++ (Deck.draw HAND_SIZE deck).1))
          ((Deck.draw HAND_SIZE deck).2) hndr
          (by rw [hdrop]; simp only [HAND_SIZE] at *; omega) hfalse p hp2
        rw [hrec]
        have hpq : ¬ (p = q) := fun h => hqr (h ▸ hp2)
        show (updHands hands q _ p).length + _ = _
        unfold updHands
        rw [if_neg hpq]

theorem fullCardList_length : Deck.fullCardList.length = 36 := by decide

theorem initializePlayers_spec (order : List Nat) (hnd : order.Nodup) :
    ∀ (shuffleList : List (List Card)) (hands : Nat → List Card)
      (deck : List Card),
      (∀ l ∈ shuffleList, l.Perm Deck.fullCardList) →
      initializePlayers order shuffleList = .ok (hands, deck) →
      (∀ p, hands p ⊆ Deck.fullCardList) ∧ deck ⊆ Deck.fullCardList ∧
        (∀ p ∈ order, is_starting_hand_legal HAND_SIZE (hands p) = true) ∧
        (order.length ≤ 6 → ∀ p ∈ order, (hands p).length = HAND_SIZE) := by
  intro shuffleList
  induction shuffleList with
  | nil => intro hands deck _ hok; cases hok
  | cons shuffled rest ih =>
    intro hands deck hsh hok
    simp only [initializePlayers] at hok
    split at hok
    · exact ih hands deck (fun l hl => hsh l (List.mem_cons_of_mem _ hl)) hok
    next hcond =>
      have hfalse : (dealCards (fun _ => []) shuffled order).2.2 = false := by
        cases hb : (dealCards (fun _ => []) shuffled order).2.2 with
        | false => rfl
        | true => exact absurd hb hcond
      rw [Except.ok.injEq, Prod.mk.injEq] at hok
      obtain ⟨hh, hd⟩ := hok
      subst hh
      subst hd
      have hperm : shuffled.Perm Deck.fullCardList :=
        hsh shuffled (List.mem_cons_self _ _)
      have hsub : shuffled ⊆ Deck.fullCardList := hperm.subset
      have hslen : shuffled.length = 36 := by
        rw [hperm.length_eq, fullCardList_length]
      obtain ⟨hh1, hd1⟩ := dealCards_sub order (fun _ => []) shuffled
        (fun p => List.nil_subset _) hsub
      refine ⟨hh1, hd1, dealCards_legal order _ _ hnd hfalse, ?_⟩
      intro hle p hp
      have := dealCards_len order (fun _ => []) shuffled hnd
        (by rw [hslen]; simp only [HAND_SIZE]; omega) hfalse p hp
      simpa using this

theorem reset_inv (order : List Nat) (shuffleList : List (List Card))
    (s : EnvState) (hnd : order.Nodup) (hmin : MIN_PLAYERS ≤ order.length)
    (hmax : order.length ≤ MAX_PLAYERS)
    (hsh : ∀ l ∈ shuffleList, l.Perm Deck.fullCardList)
    (hok : reset order shuffleList = .ok s) : EnvInv s := by
  simp only [reset] at hok
  rcases (except_bind_ok _ _ _).1 hok with ⟨rr, hinit, hok⟩
  rcases (except_bind_ok _ _ _).1 hok with ⟨s1, hres, hok⟩
  rw [pure_ok] at hok
  subst hok
  obtain ⟨hhsub, hdksub, hleg, hlen6⟩ :=
    initializePlayers_spec order hnd shuffleList rr.1 rr.2 hsh hinit
  have hperm : (setFirstAttacker rr.1 Suit.hearts order).Perm order :=
    setFirstAttacker_perm rr.1 Suit.hearts order
  obtain ⟨a, d, hga, hgd, hs1⟩ := doResetRound_ok _ s1 hres
  subst hs1
  have hturnA : a ∈ setFirstAttacker rr.1 Suit.hearts order :=
    List.getElem?_mem hga
  have hdmem : d ∈ setFirstAttacker rr.1 Suit.hearts order :=
    List.getElem?_mem hgd
  have hdhand : (rr.1 d).length = HAND_SIZE :=
    hlen6 (le_trans hmax (by simp [MAX_PLAYERS])) d (hperm.subset hdmem)
  have hmemne : ∀ p ∈ setFirstAttacker rr.1 Suit.hearts order, rr.1 p ≠ [] := by
    intro p hp hc
    have h6 := hlen6 (le_trans hmax (by simp [MAX_PLAYERS])) p (hperm.subset hp)
    rw [hc] at h6
    simp [HAND_SIZE] at h6
  refine envInv_updateLegalCards _ ⟨hperm.nodup_iff.2 hnd, hdksub, hhsub,
    ?_, ?_, List.nil_subset _, List.nil_subset _, fun _ => ⟨rfl, rfl⟩, ?_, ?_⟩
  · intro p hp
    exact hmemne p hp
  · exact hmemne a hturnA
  · intro h
    cases h
  · intro _
    refine ⟨?_, hturnA, ?_, rfl, ?_, ?_⟩
    · show MIN_PLAYERS ≤ (setFirstAttacker rr.1 Suit.hearts order).length
      rw [hperm.length_eq]
      exact hmin
    · show 1 ≤ min HAND_SIZE (rr.1 d).length
      rw [hdhand]
      simp [HAND_SIZE]
    · intro _
      constructor
      · rfl
      · show 0 < min HAND_SIZE (rr.1 d).length
        rw [hdhand]
        simp [HAND_SIZE]
    · intro h
      cases h

/-- Every reachable state satisfies the full invariant. -/
theorem reachable_inv (s : EnvState) (h : Reachable s) : EnvInv s := by
  induction h with
  | reset_ok order shuffleList s hnd hmin hmax hsh hok =>
    exact reset_inv order shuffleList s hnd hmin hmax hsh hok
  | step_ok s a s' r d _ ha hok ih =>
    exact step_inv s a s' r d ih ha hok

/-! ### Assorted helper lemmas for the claim theorems -/

theorem nodup_getElem?_inj {α : Type} (l : List α) (hnd : l.Nodup) (i j : Nat)
    (x : α) (hi : l[i]? = some x) (hj : l[j]? = some x) : i = j := by
  obtain ⟨hib, hiv⟩ := List.getElem?_eq_some_iff.1 hi
  obtain ⟨hjb, hjv⟩ := List.getElem?_eq_some_iff.1 hj
  exact (List.Nodup.getElem_inj_iff hnd).1 (hiv.trans hjv.symm)

theorem tail_reward (s1 : EnvState) (rr : Int) (res : EnvState × Int × Bool)
    (hok : (checkEndRound s1 >>= fun s2 =>
        if s2.resetRound = true then
          resolveRound s2 >>= fun y =>
            pure (updateLegalCards y, rr, gameOver (updateLegalCards y))
        else pure s2 >>= fun y =>
          pure (updateLegalCards y, rr, gameOver (updateLegalCards y))) =
      .ok res) :
    res.2.1 = rr := by
  rcases (except_bind_ok _ _ _).1 hok with ⟨s2, -, hok⟩
  split at hok
  · rcases (except_bind_ok _ _ _).1 hok with ⟨s3, -, hok⟩
    rw [pure_ok] at hok
    subst hok
    rfl
  · rcases (except_bind_ok _ _ _).1 hok with ⟨y, -, hok⟩
    rw [pure_ok] at hok
    subst hok
    rfl

theorem updateActivePlayersOrder_eq (s : EnvState) (hlen : 2 ≤ s.ring.length) :
    (updateActivePlayersOrder s).ring =
      if s.ring.head? = some s.attackingPlayer then
        (if s.successful = false then ringMoveBack (ringMoveBack s.ring)
          else ringMoveBack s.ring)
      else
        (if s.successful = false then ringMoveBack s.ring else s.ring) := by
  have hne1 : ¬ (s.ring.length = 1) := by omega
  have hm : MIN_PLAYERS ≤ s.ring.length := hlen
  by_cases h1 : s.ring.head? = some s.attackingPlayer <;>
    by_cases h2 : s.successful = false <;>
      simp [updateActivePlayersOrder, moveAttackerBack, hne1, hm, h1, h2]

theorem initializePlayers_all_legal (order : List Nat) (hnd : order.Nodup) :
    ∀ (shuffleList : List (List Card)) (hands : Nat → List Card)
      (deck : List Card),
      initializePlayers order shuffleList = .ok (hands, deck) →
      ∀ p ∈ order, is_starting_hand_legal HAND_SIZE (hands p) = true := by
  intro shuffleList
  induction shuffleList with
  | nil => intro hands deck hok; cases hok
  | cons shuffled rest ih =>
    intro hands deck hok
    simp only [initializePlayers] at hok
    split at hok
    · exact ih hands deck hok
    next hcond =>
      have hfalse : (dealCards (fun _ => []) shuffled order).2.2 = false := by
        cases hb : (dealCards (fun _ => []) shuffled order).2.2 with
        | false => rfl
        | true => exact absurd hb hcond
      rw [Except.ok.injEq, Prod.mk.injEq] at hok
      obtain ⟨hh, -⟩ := hok
      subst hh
      exact dealCards_legal order _ _ hnd hfalse

theorem countSuits_foldl_sum : ∀ (hand : List Card) (acc : SuitCounts),
    (let r := hand.foldl
      (fun acc c =>
        match c.2 with
        | .hearts => { acc with hearts := acc.hearts + 1 }
        | .diamonds => { acc with diamonds := acc.diamonds + 1 }
        | .spades => { acc with spades := acc.spades + 1 }
        | .clubs => { acc with clubs := acc.clubs + 1 })
      acc
    r.hearts + r.diamonds + r.spades + r.clubs) =
      acc.hearts + acc.diamonds + acc.spades + acc.clubs + hand.length := by
  intro hand
  induction hand with
  | nil => intro acc; simp
  | cons c t ih =>
    intro acc
    rcases c with ⟨v, sc⟩
    rw [List.foldl_cons]
    cases sc <;>
      simp only [] <;>
      rw [ih] <;>
      simp <;>
      omega

theorem countSuits_sum (hand : List Card) :
    (countSuits hand).hearts + (countSuits hand).diamonds +
      (countSuits hand).spades + (countSuits hand).clubs = hand.length := by
  have h := countSuits_foldl_sum hand ⟨0, 0, 0, 0⟩
  simpa [countSuits] using h

/-! ### The concrete two-player run is reachable -/

theorem coDeck_perm : coDeck.Perm Deck.fullCardList := by decide

theorem reachable_coS0 : Reachable coS0 := by
  refine Reachable.reset_ok [0, 1] [coDeck] coS0 (by decide) (by decide)
    (by decide) ?_ rfl
  intro l hl
  have : l = coDeck := by simpa using hl
  subst this
  exact coDeck_perm

theorem reachable_coS1 : Reachable coS1 :=
  Reachable.step_ok coS0 coA1 coS1 coR1.2.1 coR1.2.2 reachable_coS0
    (by decide) rfl

theorem reachable_coS2 : Reachable coS2 :=
  Reachable.step_ok coS1 coA2 coS2 coR2.2.1 coR2.2.2 reachable_coS1
    (by decide) rfl

theorem reachable_coS3 : Reachable coS3 :=
  Reachable.step_ok coS2 coA3 coS3 coR3.2.1 coR3.2.2 reachable_coS2
    (by decide) rfl

/-! ### Claim theorems -/

/-- C1 counterexample: the claim that no card appears simultaneously in a
legal list and on the table fails on a reachable state: after the legal
sequence ten-of-spades, seven-of-hearts, seven-of-spades, the ten of spades
lies in `attackingCards` and is nevertheless listed in
`legalDefendingCards` (it beats the last attack, and `update_legal_cards`
only excludes the defending row). -/
theorem c1_counterexample :
    Reachable coS3 ∧ (10, Suit.spades) ∈ coS3.attackingCards ∧
      some ((10 : Nat), Suit.spades) ∈ coS3.legalDefendingCards :=
  ⟨reachable_coS3, by decide, by decide⟩

/-- C1 (amended): for every reachable state, no card appears in both
`legalAttackingCards` and either table list, and no card appears in both
`legalDefendingCards` and the defending row.  (A card of the attacking row
may reappear among the legal defending cards.) -/
theorem c1_legal_lists_vs_table (s : EnvState) (hs : Reachable s) :
    (∀ c : Card, some c ∈ s.legalAttackingCards →
      c ∉ s.attackingCards ∧ c ∉ s.defendingCards) ∧
    (∀ c : Card, some c ∈ s.legalDefendingCards → c ∉ s.defendingCards) := by
  obtain ⟨⟨-, -, -, -, -, -, -, hemp, -, -⟩, hLA, hLD⟩ := reachable_inv s hs
  constructor
  · intro c hc
    rw [hLA] at hc
    rcases mem_computedLegalAtt_elim _ _ _ hc with h | ⟨e, he, -, hrest⟩
    · cases h
    · obtain rfl : c = e := by injection he
      by_cases hne : s.attackingCards = []
      · obtain ⟨hd0, -⟩ := hemp hne
        rw [hne, hd0]
        exact ⟨List.not_mem_nil c, List.not_mem_nil c⟩
      · exact hrest hne
  · intro c hc
    rw [hLD] at hc
    by_cases hne : s.attackingCards = []
    · unfold computedLegalDef at hc
      rw [if_pos (by rw [hne]; rfl)] at hc
      simp at hc
    · exact ((mem_computedLegalDef_iff _ _ _ _ hne).1 hc).2.2.1

theorem c1_witness :
    (∀ c : Card, some c ∈ coS1.legalAttackingCards →
      c ∉ coS1.attackingCards ∧ c ∉ coS1.defendingCards) ∧
    (∀ c : Card, some c ∈ coS1.legalDefendingCards →
      c ∉ coS1.defendingCards) :=
  c1_legal_lists_vs_table coS1 reachable_coS1

/-- C2: at every point within a round (`defending = true`) of a reachable
state, `0 ≤ len(defendingCards) ≤ len(attackingCards) ≤ limit`, where
`limit` is the value `min(HAND_SIZE, defender hand size)` fixed by
`do_reset_round` at round start. -/
theorem c2_table_size_invariant (s : EnvState) (hs : Reachable s)
    (hdf : s.defending = true) :
    0 ≤ s.defendingCards.length ∧
      s.defendingCards.length ≤ s.attackingCards.length ∧
      s.attackingCards.length ≤ s.limit := by
  obtain ⟨⟨-, -, -, -, -, -, -, -, -, hdfT⟩, -, -⟩ := reachable_inv s hs
  obtain ⟨-, -, -, -, hapT, hapF⟩ := hdfT hdf
  refine ⟨Nat.zero_le _, ?_⟩
  cases hap : s.attackPhase with
  | true =>
    obtain ⟨he, hl⟩ := hapT hap
    omega
  | false =>
    obtain ⟨he, hl⟩ := hapF hap
    omega

theorem c2_witness :
    0 ≤ coS2.defendingCards.length ∧
      coS2.defendingCards.length ≤ coS2.attackingCards.length ∧
      coS2.attackingCards.length ≤ coS2.limit :=
  c2_table_size_invariant coS2 reachable_coS2 rfl

/-- C3: with at least two active players left, `update_active_players_order`
rotates the ring once when the player at the attacker position is still the
round's original attacker, and once more when the defence failed; when
winner removal has already moved the original attacker out of position, the
attacker-position rotation is skipped.  Consequently, after a failed defence
with three or more players and no winners removed the new attacker is the
ring member two positions after the original attacker. -/
theorem c3_rotation_rule (s : EnvState) (hlen : 2 ≤ s.ring.length) :
    (s.ring.head? = some s.attackingPlayer → s.successful = false →
      (updateActivePlayersOrder s).ring = ringMoveBack (ringMoveBack s.ring)) ∧
    (s.ring.head? = some s.attackingPlayer → s.successful = true →
      (updateActivePlayersOrder s).ring = ringMoveBack s.ring) ∧
    (s.ring.head? ≠ some s.attackingPlayer → s.successful = false →
      (updateActivePlayersOrder s).ring = ringMoveBack s.ring) ∧
    (s.ring.head? ≠ some s.attackingPlayer → s.successful = true →
      (updateActivePlayersOrder s).ring = s.ring) ∧
    (3 ≤ s.ring.length → s.ring.head? = some s.attackingPlayer →
      s.successful = false →
      (updateActivePlayersOrder s).ring.head? = s.ring[2]?) := by
  rw [updateActivePlayersOrder_eq s hlen]
  refine ⟨?_, ?_, ?_, ?_, ?_⟩
  · intro h1 h2
    rw [if_pos h1, if_pos h2]
  · intro h1 h2
    rw [if_pos h1, if_neg (by simp [h2])]
  · intro h1 h2
    rw [if_neg h1, if_pos h2]
  · intro h1 h2
    rw [if_neg h1, if_neg (by simp [h2])]
  · intro h3 h1 h2
    rw [if_pos h1, if_pos h2]
    rcases hr : s.ring with _ | ⟨a, _ | ⟨b, _ | ⟨c3, t⟩⟩⟩
    · rw [hr] at h3; simp at h3
    · rw [hr] at h3; simp at h3
    · rw [hr] at h3; simp at h3
    · simp [ringMoveBack]

theorem c3_witness :
    (updateActivePlayersOrder coRot).ring =
      ringMoveBack (ringMoveBack coRot.ring) :=
  (c3_rotation_rule coRot (by decide)).1 rfl rfl

/-- C4: in the defending phase a real card is appended to `defendingCards`
and the phase returns to attacking; if the table then reaches
`len(attackingCards) = len(defendingCards) = limit` the round ends
successfully.  `NO_CARD` ends the round unsuccessfully and transfers the
whole table into the turn player's (the defender's) hand, growing it by
`len(attackingCards) + len(defendingCards)`. -/
theorem c4_defence_resolution (s t : EnvState) :
    (∀ c : Card, doDefencePhase (some c) s = .ok t →
      t.defendingCards = s.defendingCards ++ [c] ∧ t.attackPhase = true ∧
      (s.attackingCards.length = s.defendingCards.length + 1 ∧
          s.defendingCards.length + 1 = s.limit →
        t.defending = false ∧ t.successful = true) ∧
      (¬(s.attackingCards.length = s.defendingCards.length + 1 ∧
          s.defendingCards.length + 1 = s.limit) →
        t.defending = s.defending ∧ t.successful = s.successful) ∧
      t.hands = s.hands) ∧
    (doDefencePhase none s = .ok t →
      t.defending = false ∧ t.successful = false ∧
      t.hands s.turnPlayer =
        s.hands s.turnPlayer ++ s.attackingCards ++ s.defendingCards ∧
      (t.hands s.turnPlayer).length =
        (s.hands s.turnPlayer).length +
          (s.attackingCards.length + s.defendingCards.length)) := by
  constructor
  · intro c hok
    obtain ⟨-, hh1, -, -, hde1, hap1, -, -, -, -, -, -, hite⟩ :=
      doDefencePhase_some_ok s t c hok
    refine ⟨hde1, hap1, ?_, ?_, hh1⟩
    · intro hcond
      rw [if_pos (by simp only [List.length_append, List.length_cons,
        List.length_nil]; omega)] at hite
      exact hite
    · intro hcond
      rw [if_neg (fun hc => hcond (by
        simp only [List.length_append, List.length_cons, List.length_nil]
          at hc
        omega))] at hite
      exact hite
  · intro hok
    rw [doDefencePhase_none, Except.ok.injEq] at hok
    have hd0 : t.defending = false := by rw [← hok]
    have hsu : t.successful = false := by rw [← hok]
    have hh : t.hands s.turnPlayer =
        s.hands s.turnPlayer ++ s.attackingCards ++ s.defendingCards := by
      rw [← hok]
      show updHands s.hands s.turnPlayer _ s.turnPlayer = _
      unfold updHands
      rw [if_pos rfl]
    refine ⟨hd0, hsu, hh, ?_⟩
    rw [hh]
    simp only [List.length_append]
    omega

theorem c4_witness :
    ((doDefencePhase coA2 coS1).toOption.getD default).defendingCards =
      coS1.defendingCards ++ [(7, Suit.hearts)] :=
  ((c4_defence_resolution coS1
    ((doDefencePhase coA2 coS1).toOption.getD default)).1
    (7, Suit.hearts) rfl).1

/-- C5: in the attacking phase, a real card is appended to `attackingCards`
and the phase becomes defending.  `NO_CARD` from the last ring member ends
the round successfully; otherwise the turn pointer advances to the next
ring member (index `i + 1`), skipping over the defender (position 1) to the
member after them (position 2) — unless the defender is the last ring
member, in which case the pointer steps back one (to position 0) and the
round ends successfully. -/
theorem c5_attack_phase_transitions (s t : EnvState) (i : Nat)
    (hnd : s.ring.Nodup) (hget : s.ring[i]? = some s.turnPlayer) :
    (∀ c : Card, doAttackPhase (some c) s = .ok t →
      t.attackingCards = s.attackingCards ++ [c] ∧ t.attackPhase = false ∧
      t.defending = s.defending) ∧
    (doAttackPhase none s = .ok t →
      (s.ring.getLast? = some s.turnPlayer →
        t.defending = false ∧ t.successful = true ∧
        t.turnPlayer = s.turnPlayer ∧ t.ring = s.ring ∧
        t.attackingCards = s.attackingCards) ∧
      (s.ring.getLast? ≠ some s.turnPlayer → 1 ≤ i →
        s.ring[i + 1]? = some t.turnPlayer ∧ t.defending = s.defending ∧
        t.attackingCards = s.attackingCards) ∧
      (s.ring.getLast? ≠ some s.turnPlayer → i = 0 →
          s.ring[1]? ≠ s.ring.getLast? →
        s.ring[2]? = some t.turnPlayer ∧ t.defending = s.defending) ∧
      (s.ring.getLast? ≠ some s.turnPlayer → i = 0 →
          s.ring[1]? = s.ring.getLast? →
        s.ring[0]? = some t.turnPlayer ∧ t.defending = false ∧
        t.successful = true)) := by
  constructor
  · intro c hok
    rw [doAttackPhase_some, Except.ok.injEq] at hok
    exact ⟨by rw [← hok], by rw [← hok], by rw [← hok]⟩
  · intro hok
    simp only [doAttackPhase] at hok
    rcases (except_bind_ok _ _ _).1 hok with ⟨lastP, hlastP, hok⟩
    rw [pyGet_ok_neg_one] at hlastP
    split at hok
    next h1 =>
      rw [pure_ok] at hok
      refine ⟨?_, ?_, ?_, ?_⟩
      · intro _
        exact ⟨by rw [← hok], by rw [← hok], by rw [← hok], by rw [← hok],
          by rw [← hok]⟩
      · intro hne _
        exact absurd (by rw [h1]; exact hlastP) hne
      · intro hne _ _
        exact absurd (by rw [h1]; exact hlastP) hne
      · intro hne _ _
        exact absurd (by rw [h1]; exact hlastP) hne
    next h1 =>
      have hc1 : s.ring.getLast? = some s.turnPlayer → False := by
        intro habs
        rw [hlastP] at habs
        exact h1 (Option.some.inj habs).symm
      rcases (except_bind_ok _ _ _).1 hok with ⟨i2, hi2, hok⟩
      have hpi := pyIndex_ok_of_get s.ring i s.turnPlayer hnd hget
      rw [hpi] at hi2
      have hi2e : i = i2 := by injection hi2
      subst hi2e
      rcases (except_bind_ok _ _ _).1 hok with ⟨tn, htn, hok⟩
      rw [pyGet_cast_add_one] at htn
      rcases (except_bind_ok _ _ _).1 hok with ⟨dn, hdn, hok⟩
      rw [pyGet_one_ok] at hdn
      split at hok
      next htd =>
        have hi0 : i = 0 := by
          have h11 : i + 1 = 1 :=
            nodup_getElem?_inj s.ring hnd (i + 1) 1 tn htn
              (by rw [htd]; exact hdn)
          omega
        have hdn2 : s.ring[1]? = some tn := by rw [htd]; exact hdn
        have hpj := pyIndex_ok_of_get s.ring 1 tn hnd hdn2
        split at hok
        next h3 =>
          rcases (except_bind_ok _ _ _).1 hok with ⟨j, hj, hok⟩
          rw [hpj] at hj
          have hje : (1 : Nat) = j := by injection hj
          subst hje
          rcases (except_bind_ok _ _ _).1 hok with ⟨t2, ht2, hok⟩
          rw [pyGet_cast_add_one] at ht2
          rw [pure_ok] at hok
          refine ⟨fun habs => absurd (hc1 habs) id, ?_, ?_, ?_⟩
          · intro _ h1i
            exact absurd h1i (by omega)
          · intro _ _ _
            exact ⟨by rw [← hok]; exact ht2, by rw [← hok]⟩
          · intro _ _ habs
            have hde : dn = lastP := by
              rw [hdn, hlastP] at habs
              exact Option.some.inj habs
            exact absurd (htd.trans hde) h3
        next h3 =>
          have h3e : tn = lastP := not_not.1 h3
          rcases (except_bind_ok _ _ _).1 hok with ⟨j, hj, hok⟩
          rw [hpj] at hj
          have hje : (1 : Nat) = j := by injection hj
          subst hje
          rcases (except_bind_ok _ _ _).1 hok with ⟨t2, ht2, hok⟩
          have hcast : ((1 : Nat) : Int) - 1 = ((0 : Nat) : Int) := by
            norm_num
          rw [hcast, pyGet_ok_nat] at ht2
          rw [pure_ok] at hok
          refine ⟨fun habs => absurd (hc1 habs) id, ?_, ?_, ?_⟩
          · intro _ h1i
            exact absurd h1i (by omega)
          · intro _ _ habs
            exact absurd (by rw [hdn2, hlastP, h3e]) habs
          · intro _ _ _
            exact ⟨by rw [← hok]; exact ht2, by rw [← hok], by rw [← hok]⟩
      next htd =>
        rw [pure_ok] at hok
        have hine : i + 1 ≠ 1 := by
          intro hc
          apply htd
          rw [hc] at htn
          exact Option.some.inj (htn.symm.trans hdn)
        refine ⟨fun habs => absurd (hc1 habs) id, ?_, ?_, ?_⟩
        · intro _ _
          exact ⟨by rw [← hok]; exact htn, by rw [← hok], by rw [← hok]⟩
        · intro _ hi0 _
          exact absurd (by rw [hi0]) hine
        · intro _ hi0 _
          exact absurd (by rw [hi0]) hine

theorem c5_witness :
    coS0.ring[0]? =
        some ((doAttackPhase none coS0).toOption.getD default).turnPlayer ∧
      ((doAttackPhase none coS0).toOption.getD default).defending = false ∧
      ((doAttackPhase none coS0).toOption.getD default).successful = true :=
  ((c5_attack_phase_transitions coS0
    ((doAttackPhase none coS0).toOption.getD default) 0 (by decide)
    (by decide)).2 rfl).2.2.2 (by decide) rfl (by decide)

/-- C6 counterexample: the claim that `legalDefendingCards` consists exactly
of the beating cards not already on the table fails: in the reachable state
`coS3` the ten of spades lies on the table (attacking row) and is still a
member of `legalDefendingCards`. -/
theorem c6_counterexample :
    Reachable coS3 ∧ coS3.attackingCards ≠ [] ∧
      some ((10 : Nat), Suit.spades) ∈ coS3.legalDefendingCards ∧
      (10, Suit.spades) ∈ coS3.attackingCards ++ coS3.defendingCards :=
  ⟨reachable_coS3, by decide, by decide, by decide⟩

/-- C6 (amended): in every reachable state with a nonempty attacking row,
`legalDefendingCards` is `NO_CARD` together with exactly the deck cards not
already among the defending row that beat the last attacking card (same
suit and higher value, or trump against non-trump), and those candidates
are present only while `len(attackingCards) > len(defendingCards)`.
Scenario B: against a lone (7, spades) with trump hearts the legal
defending cards are exactly the higher spades and all hearts. -/
theorem c6_legal_defending (s : EnvState) (hs : Reachable s)
    (hne : s.attackingCards ≠ []) :
    (∀ c : Card, some c ∈ s.legalDefendingCards ↔
      (c ∈ Deck.fullCardList ∧
        s.defendingCards.length < s.attackingCards.length ∧
        c ∉ s.defendingCards ∧
        defBeat s.trumpSuit s.attackingCards c = true)) ∧
    (none : Action) ∈ s.legalDefendingCards ∧
    computedLegalDef .hearts [(7, .spades)] [] =
      none :: (Deck.fullCardList.filter (fun c =>
        decide ((c.2 = Suit.spades ∧ 7 < c.1) ∨ c.2 = Suit.hearts))).map
        some := by
  obtain ⟨-, -, hLD⟩ := reachable_inv s hs

  refine ⟨?_, ?_, by decide⟩
  · intro c
    rw [hLD]
    exact mem_computedLegalDef_iff _ _ _ _ hne
  · rw [hLD]
    exact none_mem_computedLegalDef _ _ _

theorem c6_witness :
    (∀ c : Card, some c ∈ coS3.legalDefendingCards ↔
      (c ∈ Deck.fullCardList ∧
        coS3.defendingCards.length < coS3.attackingCards.length ∧
        c ∉ coS3.defendingCards ∧
        defBeat coS3.trumpSuit coS3.attackingCards c = true)) ∧
    (none : Action) ∈ coS3.legalDefendingCards ∧
    computedLegalDef .hearts [(7, .spades)] [] =
      none :: (Deck.fullCardList.filter (fun c =>
        decide ((c.2 = Suit.spades ∧ 7 < c.1) ∨ c.2 = Suit.hearts))).map
        some :=
  c6_legal_defending coS3 reachable_coS3 (by decide)

/-- C7: the reward returned by `step` is `calculate_reward` of the state
right after the phase handler: +30 when that state's turn player has an
empty hand and the deck is empty, otherwise +1 when the round has just
ended successfully, -1 when it ended by failed defence, and 0 while the
round continues. -/
theorem c7_step_reward (s : EnvState) (a : Action) (s' : EnvState) (r : Int)
    (d : Bool) (hok : step s a = .ok (s', r, d)) :
    ∃ m : EnvState,
      (if s.attackPhase = true then doAttackPhase a s
        else doDefencePhase a s) = .ok m ∧
      r = calculateReward m ∧
      ((m.hands m.turnPlayer).length = 0 ∧ m.deck.length = 0 → r = 30) ∧
      (¬((m.hands m.turnPlayer).length = 0 ∧ m.deck.length = 0) →
        (m.defending = false → m.successful = true → r = 1) ∧
        (m.defending = false → m.successful = false → r = -1) ∧
        (m.defending = true → r = 0)) := by
  simp only [step] at hok
  by_cases hap : s.attackPhase = true
  · rw [if_pos hap] at hok ⊢
    rcases (except_bind_ok _ _ _).1 hok with ⟨s1, hph, hok2⟩
    have hr : r = calculateReward s1 := tail_reward s1 _ (s', r, d) hok2
    refine ⟨s1, hph, hr, ?_, ?_⟩
    · intro hc
      rw [hr]
      simp [calculateReward, hc.1, hc.2]
    · intro hc
      refine ⟨?_, ?_, ?_⟩
      · intro h1 h2
        rw [hr]
        simp only [calculateReward]
        rw [if_neg hc]
        simp [h1, h2]
      · intro h1 h2
        rw [hr]
        simp only [calculateReward]
        rw [if_neg hc]
        simp [h1, h2]
      · intro h1
        rw [hr]
        simp only [calculateReward]
        rw [if_neg hc]
        simp [h1]
  · rw [if_neg hap] at hok ⊢
    rcases (except_bind_ok _ _ _).1 hok with ⟨s1, hph, hok2⟩
    have hr : r = calculateReward s1 := tail_reward s1 _ (s', r, d) hok2
    refine ⟨s1, hph, hr, ?_, ?_⟩
    · intro hc
      rw [hr]
      simp [calculateReward, hc.1, hc.2]
    · intro hc
      refine ⟨?_, ?_, ?_⟩
      · intro h1 h2
        rw [hr]
        simp only [calculateReward]
        rw [if_neg hc]
        simp [h1, h2]
      · intro h1 h2
        rw [hr]
        simp only [calculateReward]
        rw [if_neg hc]
        simp [h1, h2]
      · intro h1
        rw [hr]
        simp only [calculateReward]
        rw [if_neg hc]
        simp [h1]

theorem c7_witness :
    ∃ m : EnvState,
      (if coS0.attackPhase = true then doAttackPhase coA1 coS0
        else doDefencePhase coA1 coS0) = .ok m ∧
      coR1.2.1 = calculateReward m ∧
      ((m.hands m.turnPlayer).length = 0 ∧ m.deck.length = 0 →
        coR1.2.1 = 30) ∧
      (¬((m.hands m.turnPlayer).length = 0 ∧ m.deck.length = 0) →
        (m.defending = false → m.successful = true → coR1.2.1 = 1) ∧
        (m.defending = false → m.successful = false → coR1.2.1 = -1) ∧
        (m.defending = true → coR1.2.1 = 0)) :=
  c7_step_reward coS0 coA1 coS1 coR1.2.1 coR1.2.2 rfl

/-- C8: a dealt hand of `HAND_SIZE` cards is illegal exactly when one suit
accounts for at least `HAND_SIZE - 1` of its cards, or hearts plus diamonds
equal `HAND_SIZE`, or spades plus clubs do; `initialize_players` only
returns hands that are all legal (redealing otherwise); a 3-hearts
3-diamonds hand is rejected and a 2-hearts 2-spades 2-clubs hand is
accepted. -/
theorem c8_starting_hand_rule (hand : List Card)
    (h6 : hand.length = HAND_SIZE) (order : List Nat)
    (shuffleList : List (List Card)) (hands : Nat → List Card)
    (deck : List Card) (hnd : order.Nodup) :
    (is_starting_hand_legal HAND_SIZE hand = false ↔
      (HAND_SIZE - 1 ≤ (countSuits hand).hearts ∨
        HAND_SIZE - 1 ≤ (countSuits hand).diamonds ∨
        HAND_SIZE - 1 ≤ (countSuits hand).spades ∨
        HAND_SIZE - 1 ≤ (countSuits hand).clubs ∨
        (countSuits hand).hearts + (countSuits hand).diamonds = HAND_SIZE ∨
        (countSuits hand).spades + (countSuits hand).clubs = HAND_SIZE)) ∧
    (initializePlayers order shuffleList = .ok (hands, deck) →
      ∀ p ∈ order, is_starting_hand_legal HAND_SIZE (hands p) = true) ∧
    is_starting_hand_legal HAND_SIZE
      [(6, .hearts), (7, .hearts), (8, .hearts), (6, .diamonds),
        (7, .diamonds), (8, .diamonds)] = false ∧
    is_starting_hand_legal HAND_SIZE
      [(6, .hearts), (7, .hearts), (6, .spades), (7, .spades), (6, .clubs),
        (7, .clubs)] = true := by
  refine ⟨?_, initializePlayers_all_legal order hnd shuffleList hands deck,
    by decide, by decide⟩
  have hsum := countSuits_sum hand
  rw [h6] at hsum
  simp only [HAND_SIZE] at hsum ⊢
  simp only [is_starting_hand_legal]
  split_ifs with hc
  · simp only [List.mem_cons, List.not_mem_nil, or_false] at hc
    constructor
    · intro _
      omega
    · intro _
      rfl
  · simp only [List.mem_cons, List.not_mem_nil, or_false] at hc
    constructor
    · intro h
      cases h
    · intro h
      exfalso
      apply hc
      omega

theorem c8_witness :
    is_starting_hand_legal HAND_SIZE
        [(6, .hearts), (7, .hearts), (8, .hearts), (6, .diamonds),
          (7, .diamonds), (8, .diamonds)] = false ∧
      is_starting_hand_legal HAND_SIZE
        [(6, .hearts), (7, .hearts), (6, .spades), (7, .spades), (6, .clubs),
          (7, .clubs)] = true :=
  (c8_starting_hand_rule
    [(6, .hearts), (7, .hearts), (8, .hearts), (6, .diamonds), (7, .diamonds),
      (8, .diamonds)] (by decide) [0] [] (fun _ => []) [] (by decide)).2.2

/-- C9 counterexample: constructed with seven players (one above
`MAX_PLAYERS`), `reset()` does not fail with any player-count error: it
deals short hands and returns a state normally. -/
theorem c9_counterexample :
    MAX_PLAYERS < coOrder7.length ∧
      ∃ s, reset coOrder7 [Deck.fullCardList] = .ok s :=
  ⟨by decide,
    ⟨((reset coOrder7 [Deck.fullCardList]).toOption).getD default, rfl⟩⟩

/-- C9 (amended): `reset()` performs no player-count validation.  With more
than `MAX_PLAYERS` players it proceeds to deal and play (returning `.ok`);
with fewer than `MIN_PLAYERS` it fails, but with an index-out-of-range
error from `do_reset_round` reading the defender position, not a dedicated
invalid-player-count error. -/
theorem c9_no_player_count_validation :
    (MAX_PLAYERS < coOrder7.length ∧
      ∃ s, reset coOrder7 [Deck.fullCardList] = .ok s) ∧
    ([0].length < MIN_PLAYERS ∧
      reset [0] [Deck.fullCardList] = .error .indexError) :=
  ⟨⟨by decide,
    ⟨((reset coOrder7 [Deck.fullCardList]).toOption).getD default, rfl⟩⟩,
    ⟨by decide, rfl⟩⟩

/-- C10: for reachable states, `get_available_actions` returns exactly the
intersection of the turn player's hand with `legalDefendingCards` when the
turn player occupies the defender position (ring index 1) and with
`legalAttackingCards` otherwise; `NO_CARD` is never in the result, and an
empty result does not mean the player is stuck — passing with `NO_CARD` is
then legal for their role (reachable turn players hold nonempty hands). -/
theorem c10_available_actions (s : EnvState) (l : List Action)
    (hs : Reachable s) (hok : getAvailableActions s = .ok l) :
    (s.ring[1]? = some s.turnPlayer →
      ∀ x : Action, x ∈ l ↔
        x ∈ (s.hands s.turnPlayer).map some ∧ x ∈ s.legalDefendingCards) ∧
    (s.ring[1]? ≠ some s.turnPlayer →
      ∀ x : Action, x ∈ l ↔
        x ∈ (s.hands s.turnPlayer).map some ∧ x ∈ s.legalAttackingCards) ∧
    (none : Action) ∉ l ∧
    (l = [] →
      ((s.ring[1]? = some s.turnPlayer → none ∈ s.legalDefendingCards) ∧
        (s.ring[1]? ≠ some s.turnPlayer → none ∈ s.legalAttackingCards))) := by
  obtain ⟨⟨-, -, hh, -, htne, -, -, -, -, -⟩, hLA, hLD⟩ := reachable_inv s hs
  have hnd2 : s.ring.Nodup := (reachable_inv s hs).1.1
  simp only [getAvailableActions] at hok
  rcases (except_bind_ok _ _ _).1 hok with ⟨dd, hdd, hok⟩
  rw [pyGet_one_ok] at hdd
  split at hok
  next heq =>
    rw [pure_ok] at hok
    subst hok
    have hpos : s.ring[1]? = some s.turnPlayer := by rw [hdd, heq]
    refine ⟨?_, ?_, ?_, ?_⟩
    · intro _ x
      simp [List.mem_filter]
    · intro hne2
      exact absurd hpos hne2
    · intro hmem
      rw [List.mem_filter] at hmem
      rcases List.mem_map.1 hmem.1 with ⟨c, -, hc⟩
      cases hc
    · intro _
      refine ⟨fun _ => ?_, fun hne2 => absurd hpos hne2⟩
      rw [hLD]
      exact none_mem_computedLegalDef _ _ _
  next heq =>
    rw [pure_ok] at hok
    subst hok
    have hneg : s.ring[1]? ≠ some s.turnPlayer := by
      rw [hdd]
      intro hc
      exact heq (Option.some.inj hc).symm
    refine ⟨?_, ?_, ?_, ?_⟩
    · intro habs
      exact absurd habs hneg
    · intro _ x
      simp [List.mem_filter]
    · intro hmem
      rw [List.mem_filter] at hmem
      rcases List.mem_map.1 hmem.1 with ⟨c, -, hc⟩
      cases hc
    · intro hl
      refine ⟨fun habs => absurd habs hneg, fun _ => ?_⟩
      rw [hLA]
      apply none_mem_computedLegalAtt
      intro hattnil
      obtain ⟨c, hcmem⟩ := List.exists_mem_of_ne_nil _ htne
      have hcl : some c ∈ (((s.hands s.turnPlayer).map some).filter
          (fun x => decide (x ∈ s.legalAttackingCards))) := by
        rw [List.mem_filter]
        refine ⟨List.mem_map_of_mem some hcmem, ?_⟩
        rw [decide_eq_true_eq, hLA]
        unfold computedLegalAtt
        rw [if_pos (by rw [hattnil]; rfl)]
        exact List.mem_map_of_mem some (hh _ hcmem)
      rw [hl] at hcl
      cases hcl

theorem c10_witness :
    (none : Action) ∉ ((getAvailableActions coS0).toOption.getD []) :=
  (c10_available_actions coS0 ((getAvailableActions coS0).toOption.getD [])
    reachable_coS0 rfl).2.2.1

end DurakEnv

end Durak
